import Mathlib

/-!
Verification development for the tceccutechess tournament core.

This file gives a shallow embedding, in Lean 4, of the parts of the
code base that the checked claims are about:

* the game adjudicator (`src/projects/lib/src/gameadjudicator.cpp`),
* the tournament controller's score accumulation
  (`src/projects/lib/src/tournament.cpp`, `onGameFinished`),
* the naive round-robin schedule
  (`src/projects/lib/src/roundrobintournament.cpp`, `getPairings`),
* the knockout match-extension rule
  (`src/projects/lib/src/knockouttournament.cpp`, `needMoreGames`),
* the PGN evaluation-score formatting
  (`src/projects/lib/src/chessgame.cpp`, `evalString`),
* the maximum-cardinality (blossom) matcher
  (`src/projects/lib/src/graph_blossom.h`),
* the TCEC Swiss round pairing
  (`src/projects/lib/src/swisstournament.cpp`).

Modelling conventions, used throughout:

* C++ `int` values that are provably non-negative in every reachable
  state (ply counts, consecutive-move counters, configuration values
  guarded by `Q_ASSERT(x >= 0)` in their setters) are modelled as `Nat`;
  other `int` values (scores, white-game differences) are modelled as
  `Int`.  Where a quantity is genuinely non-negative, C++ integer
  division and modulo agree with the `Nat` operations.
* `Q_ASSERT` compiles to a no-op in release builds and is modelled as a
  no-op.
* Loops whose termination is not structural are modelled with an
  explicit fuel parameter; exhausting the fuel returns a designated
  default.  Top-level wrappers instantiate the fuel generously so that
  the fuel case is unreachable for the executions considered.
-/

namespace Chess

/-- Modelled from the spec: the board library (`projects/lib/src/board`)
is not part of the sources under inspection.  The spec's data model has
"Game result — winner in white, black, none; type in normal,
adjudication, resignation, timeout, disconnection, stalled connection,
illegal move, result error, no result".  `Side` is a player color. -/
inductive Side where
  | white
  | black
deriving DecidableEq, Repr

/-- Opposite color, `Chess::Side::opposite`. -/
def Side.opposite : Side → Side
  | .white => .black
  | .black => .white

/-- Modelled from the spec: the result-type enumeration of the game
result record in the spec's data model. -/
inductive ResultType where
  | noResult
  | normal
  | adjudication
  | resignation
  | timeout
  | disconnection
  | stalledConnection
  | illegalMove
  | resultError
deriving DecidableEq, Repr

/-- Modelled from the spec: a game result is a winner (white, black or
none), a result type and a textual description.  A default-constructed
`Chess::Result` has type `noResult` and no winner. -/
structure Result where
  rtype : ResultType
  winner : Option Side
  descr : String
deriving DecidableEq, Repr

/-- Modelled from the spec: the null result (`Chess::Result()`), for
which `isNone()` holds. -/
def Result.noRes : Result :=
  { rtype := .noResult, winner := none, descr := "" }

/-- Modelled from the spec: `Result::isNone()` — the result is the null
result, i.e. of type `noResult`. -/
def Result.isNone (r : Result) : Bool :=
  r.rtype = ResultType.noResult

/-- Modelled from the spec: `Result::isDraw()` — a drawn game: a real
result (not the null result) without a winner. -/
def Result.isDraw (r : Result) : Bool :=
  r.rtype ≠ ResultType.noResult ∧ r.winner = none

end Chess

namespace Adjudicator

open Chess

/-- View of the `Chess::Board` consumed by `GameAdjudicator::addEval`:
the side to move, the reversible-move count, the ply count and the
tablebase probe result of the position after the move.  The board
itself is an external collaborator; `addEval` only reads these four
quantities. -/
structure BoardIn where
  sideToMove : Side
  reversibleMoveCount : Nat
  plyCount : Nat
  tablebaseResult : Result
deriving DecidableEq, Repr

/-- View of `MoveEvaluation` consumed by the adjudicator: search depth
and score in centipawns from the mover's point of view. -/
structure MoveEvaluation where
  depth : Int
  score : Int
deriving DecidableEq, Repr

/-- Projection of a side-indexed two-element array (`int x[2]`). -/
def sideGet (p : Nat × Nat) : Side → Nat
  | .white => p.1
  | .black => p.2

/-- Update of a side-indexed two-element array. -/
def sideSet (p : Nat × Nat) : Side → Nat → Nat × Nat
  | .white, v => (v, p.2)
  | .black, v => (p.1, v)

/-- State of `GameAdjudicator` (`gameadjudicator.h`).  The counters and
the configuration counts are non-negative in every reachable state
(`Q_ASSERT`-guarded setters, and the counters only ever take the values
`0` and `old + 1`), so they are modelled as `Nat`; scores stay `Int`. -/
structure GameAdjudicator where
  drawMoveNum : Nat
  drawMoveCount : Nat
  drawScore : Int
  drawScoreCount : Nat
  resignMoveCount : Nat
  resignScore : Int
  resignScoreCount : Nat × Nat
  maxGameLength : Nat
  tbEnabled : Bool
  result : Result
  resignWinnerScoreCount : Nat × Nat
  tcecAdjudication : Bool
deriving DecidableEq, Repr

/-- Result set by the draw-adjudication rule. -/
def drawRuleResult : Result :=
  { rtype := .adjudication, winner := none, descr := "TCEC draw rule" }

/-- Result set by the max-game-length rule. -/
def maxMovesResult : Result :=
  { rtype := .adjudication, winner := none, descr := "TCEC max moves rule" }

/-- Result set by the plain resign rule: the mover `side` loses. -/
def resignRuleResult (side : Side) : Result :=
  { rtype := .adjudication, winner := some side.opposite,
    descr := "TCEC resign rule" }

/-- Result set by the TCEC resign rule in favour of `winner`. -/
def tcecWinResult (winner : Side) : Result :=
  { rtype := .adjudication, winner := some winner, descr := "TCEC win rule" }

/-- The "Draw adjudication" section of `GameAdjudicator::addEval`
(gameadjudicator.cpp lines 98-118): returns the updated state and
whether the draw rule fired (the C++ early `return`). -/
def drawStep (a1 : GameAdjudicator) (board : BoardIn) (e : MoveEvaluation) :
    GameAdjudicator × Bool :=
  if 0 < a1.drawMoveNum then
    if a1.tcecAdjudication ∧ board.reversibleMoveCount = 0 then
      (a1, false)
    else
      let cnt := if |e.score| ≤ a1.drawScore then a1.drawScoreCount + 1
                 else 0
      let a' := { a1 with drawScoreCount := cnt }
      if a'.drawMoveNum ≤ board.plyCount / 2 ∧
          a'.drawMoveCount * 2 ≤ cnt then
        ({ a' with result := drawRuleResult }, true)
      else
        (a', false)
  else
    (a1, false)

/-- The "Resign adjudication" section of `GameAdjudicator::addEval`
(gameadjudicator.cpp lines 120-158); it never returns early. -/
def resignStep (a2 : GameAdjudicator) (board : BoardIn)
    (e : MoveEvaluation) : GameAdjudicator :=
  let side := board.sideToMove.opposite
  if 0 < a2.resignMoveCount then
    if a2.tcecAdjudication then
      let lw :=
        if e.score ≤ a2.resignScore then
          (sideGet a2.resignScoreCount side + 1, 0)
        else if -a2.resignScore ≤ e.score then
          (0, sideGet a2.resignWinnerScoreCount side + 1)
        else
          (0, 0)
      let a' := { a2 with
        resignScoreCount := sideSet a2.resignScoreCount side lw.1,
        resignWinnerScoreCount :=
          sideSet a2.resignWinnerScoreCount side lw.2 }
      if a'.resignMoveCount ≤ lw.1 ∧
          a'.resignMoveCount ≤
            sideGet a'.resignWinnerScoreCount side.opposite then
        { a' with result := tcecWinResult side.opposite }
      else if a'.resignMoveCount ≤ lw.2 ∧
          a'.resignMoveCount ≤
            sideGet a'.resignScoreCount side.opposite then
        { a' with result := tcecWinResult side }
      else
        a'
    else
      let cnt := if e.score ≤ a2.resignScore then
                   sideGet a2.resignScoreCount side + 1
                 else 0
      let a' := { a2 with
        resignScoreCount := sideSet a2.resignScoreCount side cnt }
      if a'.resignMoveCount ≤ cnt then
        { a' with result := resignRuleResult side }
      else
        a'
  else
    a2

/-- The "Limit game length" section of `GameAdjudicator::addEval`
(gameadjudicator.cpp lines 160-167). -/
def maxLengthStep (a3 : GameAdjudicator) (board : BoardIn) :
    GameAdjudicator :=
  if 0 < a3.maxGameLength ∧ 2 * a3.maxGameLength ≤ board.plyCount then
    { a3 with result := maxMovesResult }
  else
    a3

/-- Embedding of `GameAdjudicator::addEval` (gameadjudicator.cpp,
lines 78-168).  The C++ early `return`s become nested conditionals;
the three rule sections are the definitions above, applied in source
order. -/
def addEval (a0 : GameAdjudicator) (board : BoardIn) (e : MoveEvaluation) :
    GameAdjudicator :=
  let side := board.sideToMove.opposite
  -- Tablebase adjudication
  let a1 := if a0.tbEnabled then { a0 with result := board.tablebaseResult }
            else a0
  if a0.tbEnabled ∧ ¬ board.tablebaseResult.isNone then a1
  else
    -- Moves forced by the user (eg. from opening book or played by user)
    if e.depth ≤ 0 then
      { a1 with drawScoreCount := 0,
                resignScoreCount := sideSet a1.resignScoreCount side 0 }
    else
      -- Draw adjudication
      let dstep := drawStep a1 board e
      if dstep.2 then dstep.1
      else
        -- Resign adjudication, then limit game length
        maxLengthStep (resignStep dstep.1 board e) board

end Adjudicator

namespace Tournament

open Chess

/-- Embedding of `Tournament::addScore` (tournament.cpp line 666):
adds `s` to player `player`'s cumulative score.  Player scores are held
in a list indexed by player index. -/
def addScore (scores : List Int) (player : Nat) (s : Int) : List Int :=
  scores.set player (scores.getD player 0 + s)

/-- Embedding of the score-accumulation switch of
`Tournament::onGameFinished` (tournament.cpp lines 919-957): winner
gets `+2`; on a decisive result the loser gets `-1` for a
disconnection or stalled connection and `0` otherwise; on a draw both
players get `+1`; any other result (the null result) changes no
score. -/
def onGameFinishedScores (scores : List Int) (iWhite iBlack : Nat)
    (r : Result) : List Int :=
  match r.winner with
  | some Side.white =>
      let s1 := addScore scores iWhite 2
      if r.rtype = ResultType.disconnection ∨
          r.rtype = ResultType.stalledConnection then
        addScore s1 iBlack (-1)
      else
        addScore s1 iBlack 0
  | some Side.black =>
      let s1 := addScore scores iBlack 2
      if r.rtype = ResultType.disconnection ∨
          r.rtype = ResultType.stalledConnection then
        addScore s1 iWhite (-1)
      else
        addScore s1 iWhite 0
  | none =>
      if r.isDraw then
        addScore (addScore scores iWhite 1) iBlack 1
      else
        scores

/-- One finished game as seen by `onGameFinished`: white and black
player indices and the game result. -/
structure FinishedGame where
  iWhite : Nat
  iBlack : Nat
  result : Result
deriving DecidableEq, Repr

/-- Processing a sequence of finished games: each game increments
`m_finishedGameCount` and runs the score switch.  Returns the final
scores and the final finished-game count. -/
def processGames (scores : List Int) (count : Nat) :
    List FinishedGame → List Int × Nat
  | [] => (scores, count)
  | g :: gs =>
      processGames (onGameFinishedScores scores g.iWhite g.iBlack g.result)
        (count + 1) gs

end Tournament

namespace RoundRobin

/-- Games of one encounter in the naive round-robin schedule
(roundrobintournament.cpp lines 123-131): `gamesPerEncounter` games
between `white` and `black`, swapping colors after each game when
`swapSides` is set. -/
def encounterGames (white black : Nat) (swapSides : Bool) :
    Nat → List (Nat × Nat)
  | 0 => []
  | n + 1 =>
      (white, black) ::
        (if swapSides then encounterGames black white swapSides n
         else encounterGames white black swapSides n)

/-- The rotation step of the naive schedule (lines 109-114): move the
first element of the bottom half to position 1 of the top half, and
push the last element of the top half to the end of the bottom half.
The empty cases are unreachable for two or more players. -/
def rotate (top bottom : List Nat) : List Nat × List Nat :=
  match bottom with
  | [] => (top, bottom)
  | b :: bs =>
      let top' := top.insertIdx 1 b
      match top'.getLast? with
      | none => (top', bs)
      | some t => (top'.dropLast, bs ++ [t])

/-- Main loop of `RoundRobinTournament::getPairings` for the naive
(non-Berger) schedule (lines 107-133), with explicit fuel.  One fuel
unit corresponds to one iteration of the `while` loop. -/
def getPairingsLoop (pc gpe fgc : Nat) (swap : Bool) :
    Nat → List Nat → List Nat → Nat → Nat → List (Nat × Nat) →
    List (Nat × Nat)
  | 0, _, _, _, _, acc => acc
  | fuel + 1, top, bottom, pairNumber, gameNumber, acc =>
      if gameNumber < fgc then
        let tb := if top.length ≤ pairNumber then rotate top bottom
                  else (top, bottom)
        let pairNum := if top.length ≤ pairNumber then 0 else pairNumber
        let white := tb.1.getD pairNum 0
        let black := tb.2.getD pairNum 0
        if white < pc ∧ black < pc then
          getPairingsLoop pc gpe fgc swap fuel tb.1 tb.2 (pairNum + 1)
            (gameNumber + gpe) (acc ++ encounterGames white black swap gpe)
        else
          getPairingsLoop pc gpe fgc swap fuel tb.1 tb.2 (pairNum + 1)
            gameNumber acc
      else
        acc

/-- Embedding of `RoundRobinTournament::getPairings`, naive (non-Berger)
branch (lines 95-134): player indices stand for the player names the
source emits (`playerAt(i).builder()->name()`).  `fgc` is
`finalGameCount()`. -/
def getPairings (pc gpe fgc : Nat) (swap : Bool) : List (Nat × Nat) :=
  let count := pc + pc % 2
  let top := List.range (count / 2)
  let bottom := ((List.range count).drop (count / 2)).reverse
  getPairingsLoop pc gpe fgc swap (2 * fgc + count + 2) top bottom 0 0 []

end RoundRobin

namespace Knockout

/-- Embedding of `KnockoutTournament::shouldWeStop`
(knockouttournament.cpp lines 268-301).  `strikeCond` stands for the
strike-count comparison against `Tournament::strikes()` on lines
286-289; `globalStop` is the mutable `m_should_we_stop_global` flag on
entry.  Returns the function result together with the new value of the
flag. -/
def shouldWeStop (gpe : Nat) (firstScore secondScore : Int)
    (strikeCond globalStop : Bool) : Bool × Bool :=
  let leadScore := max firstScore secondScore
  let g1 := if leadScore ≤ (gpe : Int) then false
            else if firstScore = secondScore then false
            else globalStop
  if ¬ g1 = true then
    if strikeCond then (true, true) else (false, g1)
  else
    (true, true)

/-- Embedding of `KnockoutTournament::needMoreGames` (lines 325-375).
`valid` is `pair->isValid()`; `firstScore` and `secondScore` are the
pair scores plus the builders' resume scores.  The `%` test matches the
C++ truncated modulo: for an equality with zero, truncated and
Euclidean modulo agree. -/
def needMoreGames (valid : Bool) (gpe : Nat) (firstScore secondScore : Int)
    (strikeCond globalStop : Bool) : Bool :=
  if ¬ valid = true then false
  else
    let leadScore := max firstScore secondScore
    if (shouldWeStop gpe firstScore secondScore strikeCond globalStop).1 then
      false
    else if leadScore ≤ (gpe : Int) then true
    else
      let minDiff : Int := if (firstScore + secondScore) % 4 = 0 then 2 else 3
      let maxDiff := |firstScore - secondScore|
      if minDiff ≤ maxDiff then false
      else if minDiff = 1 ∨ maxDiff = 0 then true
      else true

end Knockout

namespace EvalString

/-- Decimal rendering of `score / 100` with two decimal places.  This
models `QString::number(double(score) / 100.0, 'f', 2)`
(chessgame.cpp line 55): for any `int` score, `score / 100` is a
two-decimal number represented and rounded exactly, so the formatted
text is the sign, the integer part and the zero-padded two-digit
fraction of `|score|`. -/
def fmt2 (score : Int) : String :=
  let a := score.natAbs
  let sign := if score < 0 then "-" else ""
  let frac := a % 100
  let fracStr := if frac < 10 then "0" ++ toString frac else toString frac
  sign ++ toString (a / 100) ++ "." ++ fracStr

/-- Embedding of the score-formatting part of `ChessGame::evalString`
(chessgame.cpp lines 41-61): with positive depth, a score whose
absolute value exceeds 9900 and whose residue `1000 - |score| % 1000`
is below 100 is formatted as a mate distance, any other score as a
two-decimal centipawn value; with depth at most 0 the score text is
"0.00". -/
def evalScoreString (depth score : Int) : String :=
  if 0 < depth then
    let absScore := score.natAbs
    if 9900 < absScore ∧ 1000 - absScore % 1000 < 100 then
      (if score < 0 then "-" else "") ++ "M" ++
        toString (1000 - absScore % 1000)
    else
      fmt2 score
  else
    "0.00"

end EvalString

namespace GraphBlossom

/-- Embedding of `graph_blossom::DenseGraph` (graph_blossom.h lines
60-130): a dense undirected graph as a flat boolean adjacency vector of
length `numVertices * numVertices`; the edge between `v0 <= v1` is the
entry at `v0 * numVertices + v1`. -/
structure DenseGraph where
  numVertices : Nat
  connections : List Bool
deriving DecidableEq, Repr

/-- Fresh graph with no edges (`DenseGraph(numVertices)`). -/
def DenseGraph.mk0 (n : Nat) : DenseGraph :=
  { numVertices := n, connections := List.replicate (n * n) false }

/-- Normalized flat index of the pair `(v0, v1)`. -/
def DenseGraph.idx (g : DenseGraph) (v0 v1 : Nat) : Nat :=
  if v1 < v0 then v1 * g.numVertices + v0 else v0 * g.numVertices + v1

/-- `DenseGraph::containsEdge`. -/
def DenseGraph.containsEdge (g : DenseGraph) (v0 v1 : Nat) : Bool :=
  g.connections.getD (g.idx v0 v1) false

/-- `DenseGraph::insertEdge`. -/
def DenseGraph.insertEdge (g : DenseGraph) (v0 v1 : Nat) : DenseGraph :=
  { g with connections := g.connections.set (g.idx v0 v1) true }

/-- `DenseGraph::removeEdge`. -/
def DenseGraph.removeEdge (g : DenseGraph) (v0 v1 : Nat) : DenseGraph :=
  { g with connections := g.connections.set (g.idx v0 v1) false }

/-- Insert a list of edges (used to build concrete test graphs). -/
def DenseGraph.ofEdges (n : Nat) (es : List (Nat × Nat)) : DenseGraph :=
  es.foldl (fun g e => g.insertEdge e.1 e.2) (DenseGraph.mk0 n)

/-- The match-edge map `std::map<Vertex, Vertex>`, as an association
list sorted by key; the sortedness mirrors the iteration order of
`std::map`, which `findMaximumMatching` relies on when emitting the
result list. -/
def Mp := List (Nat × Nat)

/-- Map lookup (`std::map::find` / `at`). -/
def mfind (m : Mp) (k : Nat) : Option Nat :=
  match m with
  | [] => none
  | (a, b) :: t => if k = a then some b else mfind t k

/-- Map insert-or-assign (`m[k] = v`), keeping keys sorted. -/
def minsert (m : Mp) (k v : Nat) : Mp :=
  match m with
  | [] => [(k, v)]
  | (a, b) :: t =>
      if k < a then (k, v) :: (a, b) :: t
      else if k = a then (k, v) :: t
      else (a, b) :: minsert t k v

/-- Map erase (`std::map::erase`). -/
def merase (m : Mp) (k : Nat) : Mp :=
  match m with
  | [] => []
  | (a, b) :: t => if k = a then t else (a, b) :: merase t k

/-- Embedding of `MaximumCardinalityMatcher::ForestNode`
(graph_blossom.h lines 140-153): the parent (`none` for the C++ `-1`
sentinel, i.e. a root or a vertex not in the forest) and the distance
to the root (`-1` when not in the forest). -/
structure ForestNode where
  parent : Option Nat
  distanceToRoot : Int
deriving DecidableEq, Repr

/-- A default-constructed forest node: no parent, distance `-1`. -/
def ForestNode.mk0 : ForestNode :=
  { parent := none, distanceToRoot := -1 }

/-- Read a forest node (vector indexing). -/
def fnGet (fn : List ForestNode) (v : Nat) : ForestNode :=
  fn.getD v ForestNode.mk0

/-- Embedding of `addExposedVerticesAsForestRoots` (lines 155-169):
every unmatched vertex becomes a forest root with distance 0 and is
queued. -/
def addExposedVerticesAsForestRoots (g : DenseGraph) (m : Mp)
    (fn : List ForestNode) (q : List Nat) :
    List ForestNode × List Nat :=
  (List.range g.numVertices).foldl
    (fun s v =>
      if mfind m v = none then
        (s.1.set v { parent := none, distanceToRoot := 0 }, s.2 ++ [v])
      else s)
    (fn, q)

/-- Embedding of `removeMatchedEdges` (lines 171-176). -/
def removeMatchedEdges (ue : DenseGraph) (m : Mp) : DenseGraph :=
  m.foldl (fun g e => if e.1 < e.2 then g.removeEdge e.1 e.2 else g) ue

/-- Embedding of `getForestRoot` (lines 178-188), with fuel for the
parent chase; the chain lengths are bounded by the forest size. -/
def getForestRoot (fn : List ForestNode) : Nat → Nat → Nat
  | 0, x => x
  | fuel + 1, x =>
      match (fnGet fn x).parent with
      | none => x
      | some p => getForestRoot fn fuel p

/-- Embedding of `findClosestSharedParent` (lines 190-206). -/
def findClosestSharedParent (fn : List ForestNode) :
    Nat → Nat → Nat → Nat
  | 0, x, _ => x
  | fuel + 1, x, y =>
      if x = y then x
      else if (fnGet fn y).distanceToRoot ≤ (fnGet fn x).distanceToRoot then
        findClosestSharedParent fn fuel ((fnGet fn x).parent.getD x) y
      else
        findClosestSharedParent fn fuel x ((fnGet fn y).parent.getD y)

/-- Walk from `x` up the forest until `stop`, collecting the visited
vertices excluding `stop` (the loops `for (x = v; x != p; x = parent)`
of the source). -/
def walkUpTo (fn : List ForestNode) (stop : Nat) : Nat → Nat → List Nat
  | 0, _ => []
  | fuel + 1, x =>
      if x = stop then []
      else x :: walkUpTo fn stop fuel ((fnGet fn x).parent.getD x)

/-- Embedding of `contractGraph` (lines 210-244): redirect every edge
with an endpoint in the blossom to `blossomId`, then erase the matches
of all blossom vertices except the root.  The edge scan follows the
source's `(v0, v1)` iteration order on the graph being mutated. -/
def contractGraph (g : DenseGraph) (m : Mp) (blossomNodes : List Nat)
    (blossomId : Nat) : DenseGraph × Mp :=
  let pairs := (List.range g.numVertices).flatMap
    (fun v0 => (List.range g.numVertices).filterMap
      (fun v1 => if v0 < v1 then some (v0, v1) else none))
  let g' := pairs.foldl
    (fun g e =>
      if g.containsEdge e.1 e.2 then
        let v0in := blossomNodes.contains e.1
        let v1in := blossomNodes.contains e.2
        if v0in ∨ v1in then
          let g1 := g.removeEdge e.1 e.2
          let g2 := if ¬ v1in then g1.insertEdge blossomId e.2 else g1
          if ¬ v0in then g2.insertEdge e.1 blossomId else g2
        else g
      else g)
    g
  let m' := blossomNodes.foldl
    (fun m v => if v = blossomId then m else merase m v) m
  (g', m')

/-- State of the scan over `k` in `liftPath`: the `fromIndex`,
`toIndex` and `maxPathLen` variables of lines 295-297. -/
structure LiftScan where
  fromIndex : Nat
  toIndex : Nat
  maxPathLen : Nat
deriving Repr

/-- One candidate step of the `for k` loop of `liftPath` (lines
300-369): try to improve the current best path through the blossom,
subject to the connectivity constraints to the previous and next path
vertices (`none` models the C++ `-1`). -/
def liftScanStep (g : DenseGraph) (blossomPath : List Nat)
    (prevVertex nextVertex : Option Nat) (i : Nat) (s : LiftScan)
    (k : Nat) : LiftScan :=
  let sz := blossomPath.length
  let pathLen := 1 + (if k % 2 = 0 then k else sz - k)
  if s.maxPathLen < pathLen then
    match prevVertex, nextVertex with
    | some pv, some nv =>
        if i % 2 = 0 then
          let prevConnected := g.containsEdge pv (blossomPath.getD 0 0)
          let nextConnected := g.containsEdge nv (blossomPath.getD k 0)
          if ¬ nextConnected ∨ ¬ prevConnected then s
          else { fromIndex := 0, toIndex := k, maxPathLen := pathLen }
        else
          if ¬ g.containsEdge pv (blossomPath.getD k 0) then s
          else if ¬ g.containsEdge nv (blossomPath.getD 0 0) then s
          else { fromIndex := k, toIndex := 0, maxPathLen := pathLen }
    | none, some nv =>
        if g.containsEdge (blossomPath.getD k 0) nv then
          { fromIndex := 0, toIndex := k, maxPathLen := pathLen }
        else s
    | some pv, none =>
        if g.containsEdge (blossomPath.getD k 0) pv then
          { fromIndex := k, toIndex := 0, maxPathLen := pathLen }
        else s
    | none, none => s
  else s

/-- Path extraction of `liftPath` (lines 374-405): read the chosen
segment of the blossom cycle off `blossomPath`, always including the
root. -/
def liftExtract (blossomPath : List Nat) (fromIndex toIndex : Nat) :
    List Nat :=
  let sz := blossomPath.length
  if fromIndex = 0 then
    blossomPath.getD 0 0 ::
      (if toIndex % 2 = 0 then
        ((List.range sz).filter (fun j => 1 ≤ j ∧ j ≤ toIndex)).map
          (fun j => blossomPath.getD j 0)
      else
        (((List.range sz).filter (fun j => toIndex ≤ j ∧ j ≤ sz - 1)).map
          (fun j => blossomPath.getD j 0)).reverse)
  else
    (if fromIndex % 2 = 0 then
      (((List.range sz).filter (fun j => 1 ≤ j ∧ j ≤ fromIndex)).map
        (fun j => blossomPath.getD j 0)).reverse
    else
      ((List.range sz).filter (fun j => fromIndex ≤ j ∧ j ≤ sz - 1)).map
        (fun j => blossomPath.getD j 0)) ++ [blossomPath.getD 0 0]

/-- Embedding of `liftPath` (lines 246-424): expand the contracted
vertex `blossomId` occurring in `contractedPath` into a
parity-correct segment of the blossom cycle.  `blossomPath` is the
cycle `root, ..., v, w, ..., root-side` assembled from the forest
exactly as in lines 270-284. -/
def liftPath (contractedPath : List Nat) (blossomId v_id w_id : Nat)
    (g : DenseGraph) (fn : List ForestNode) : List Nat :=
  let b_dist := (fnGet fn blossomId).distanceToRoot
  let v_dist := (fnGet fn v_id).distanceToRoot
  let w_dist := (fnGet fn w_id).distanceToRoot
  let sz := (v_dist + w_dist - 2 * b_dist + 1).toNat
  let vArm := walkUpTo fn blossomId sz v_id
  let wArm := walkUpTo fn blossomId sz w_id
  -- blossomPath[0] = root; blossomPath[1 .. v_dist - b_dist] = the v arm
  -- bottom-up; blossomPath[v_dist - b_dist + 1 ..] = the w arm top-down.
  let blossomPath := (blossomId :: vArm.reverse) ++ wArm
  (List.range contractedPath.length).foldl
    (fun acc i =>
      let x_id := contractedPath.getD i 0
      if x_id ≠ blossomId then acc ++ [x_id]
      else
        let prevVertex := if 0 < i then some (contractedPath.getD (i - 1) 0)
                          else none
        let nextVertex := if i + 1 < contractedPath.length then
                            some (contractedPath.getD (i + 1) 0)
                          else none
        let s0 : LiftScan :=
          { fromIndex := blossomPath.length, toIndex := blossomPath.length,
            maxPathLen := 0 }
        let s := (List.range blossomPath.length).foldl
          (liftScanStep g blossomPath prevVertex nextVertex i) s0
        acc ++ liftExtract blossomPath s.fromIndex s.toIndex)
    []

/-- Result of scanning the unmarked edges of one queued vertex: either
the updated search state or an augmenting path that ends the search. -/
inductive ScanResult where
  | cont (fn : List ForestNode) (ue : DenseGraph) (q : List Nat)
  | stop (p : List Nat)

/-- Embedding of the `for w_id` edge scan inside `findAugmentingPath`
(lines 444-520).  `rec` is the recursive call on the contracted graph
(fuel is threaded by the caller); `rem` enumerates the candidate `w`
vertices in order. -/
def scanW (rec : DenseGraph → Mp → List Nat) (g : DenseGraph) (m : Mp)
    (v_id : Nat) :
    List Nat → List ForestNode → DenseGraph → List Nat → ScanResult
  | [], fn, ue, q => ScanResult.cont fn ue q
  | w_id :: rem, fn, ue, q =>
      if ue.containsEdge v_id w_id then
        let v_fn := fnGet fn v_id
        let w_fn := fnGet fn w_id
        if w_fn.distanceToRoot < 0 then
          -- w is not in F
          match mfind m w_id with
          | none =>
              -- unreachable: a vertex outside the forest is matched
              scanW rec g m v_id rem fn (ue.removeEdge v_id w_id) q
          | some x_id =>
              let fn1 := fn.set w_id
                { parent := some v_id,
                  distanceToRoot := v_fn.distanceToRoot + 1 }
              let fn2 := fn1.set x_id
                { parent := some w_id,
                  distanceToRoot := v_fn.distanceToRoot + 2 }
              scanW rec g m v_id rem fn2 (ue.removeEdge v_id w_id)
                (q ++ [x_id])
        else if w_fn.distanceToRoot % 2 = 0 then
          let rootOfV := getForestRoot fn (g.numVertices + 1) v_id
          let rootOfW := getForestRoot fn (g.numVertices + 1) w_id
          if rootOfV ≠ rootOfW then
            -- augmenting path root(v) --> v --> w --> root(w)
            let up_v := walkUpTo fn rootOfV (g.numVertices + 1) v_id ++
              [rootOfV]
            let up_w := walkUpTo fn rootOfW (g.numVertices + 1) w_id ++
              [rootOfW]
            ScanResult.stop (up_v.reverse ++ up_w)
          else
            let p_id := findClosestSharedParent fn (g.numVertices + 1)
              v_id w_id
            let blossomNodes := (p_id ::
              walkUpTo fn p_id (g.numVertices + 1) v_id ++
              walkUpTo fn p_id (g.numVertices + 1) w_id).insertionSort
              (fun a b => a ≤ b)
            let c := contractGraph g m blossomNodes p_id
            let path := rec c.1 c.2
            ScanResult.stop (liftPath path p_id v_id w_id g fn)
        else
          scanW rec g m v_id rem fn (ue.removeEdge v_id w_id) q
      else
        scanW rec g m v_id rem fn ue q

/-- Embedding of the `while (!unmarkedForestVertices.empty())` loop of
`findAugmentingPath` (lines 437-521), with fuel: every iteration pops
one queued vertex, and each vertex is queued at most once. -/
def bfsLoop (rec : DenseGraph → Mp → List Nat) (g : DenseGraph) (m : Mp) :
    Nat → List ForestNode → DenseGraph → List Nat → List Nat
  | 0, _, _, _ => []
  | _, _, _, [] => []
  | fuel + 1, fn, ue, v_id :: q =>
      match scanW rec g m v_id (List.range g.numVertices) fn ue q with
      | .stop p => p
      | .cont fn' ue' q' => bfsLoop rec g m fuel fn' ue' q'

/-- Embedding of `findAugmentingPath` (lines 426-524).  The outer fuel
bounds the blossom-contraction recursion depth; every contraction
strictly shrinks the matching, so `numVertices + 1` suffices at top
level. -/
def findAugmentingPath : Nat → DenseGraph → Mp → List Nat
  | 0, _, _ => []
  | fuel + 1, g, m =>
      let fn0 : List ForestNode :=
        List.replicate g.numVertices ForestNode.mk0
      let s := addExposedVerticesAsForestRoots g m fn0 []
      let ue := removeMatchedEdges g m
      bfsLoop (findAugmentingPath fuel) g m (2 * g.numVertices + 2)
        s.1 ue s.2

/-- The greedy seeding of `findMaximumMatching` (lines 532-549): scan
`j > i` for the first free neighbour of each free vertex `i`. -/
def greedyInit (g : DenseGraph) : Mp :=
  (List.range g.numVertices).foldl
    (fun m i =>
      if mfind m i ≠ none then m
      else
        match ((List.range g.numVertices).filter
            (fun j => i < j ∧ mfind m j = none ∧ g.containsEdge i j)).head?
          with
        | some j => minsert (minsert m i j) j i
        | none => m)
    []

/-- The matching augmentation along a path (lines 578-589): link the
path vertices pairwise, skipping every other edge. -/
def augmentAlong : Mp → List Nat → Bool → Mp
  | m, a :: b :: t, insertMode =>
      if insertMode then
        augmentAlong (minsert (minsert m a b) b a) (b :: t) false
      else
        augmentAlong m (b :: t) true
  | m, _, _ => m

/-- The augmentation loop of `findMaximumMatching` (lines 551-590),
with fuel: each successful augmentation enlarges the matching, so
`numVertices` iterations suffice. -/
def matchLoop (g : DenseGraph) : Nat → Mp → Mp
  | 0, m => m
  | fuel + 1, m =>
      let p := findAugmentingPath (g.numVertices + 1) g m
      if p.isEmpty then m
      else matchLoop g fuel (augmentAlong m p true)

/-- Embedding of `MaximumCardinalityMatcher::findMaximumMatching`
(lines 527-600): greedy seeding, repeated augmentation, and emission
of each matched pair once (in the ascending map order). -/
def findMaximumMatching (g : DenseGraph) : List (Nat × Nat) :=
  let m := matchLoop g (g.numVertices + 1) (greedyInit g)
  m.filterMap (fun p => if p.1 < p.2 then some (p.1, p.2) else none)

end GraphBlossom

namespace GraphBlossom

/-- Brute-force check, written from the spec's words ("no vertex
appears twice"): an edge list is a matching when no vertex occurs in
two of its edges. -/
def isMatchingList (es : List (Nat × Nat)) : Bool :=
  decide (es.flatMap (fun e => [e.1, e.2])).Nodup

/-- Brute-force maximum-matching cardinality, written from the spec's
words ("verifiable on small graphs by brute force"): the largest
cardinality over all sub-lists of the edge list that form a
matching. -/
def maxMatchingSizeBrute (edges : List (Nat × Nat)) : Nat :=
  (edges.sublists.filterMap
    (fun s => if isMatchingList s then some s.length else none)).foldr
    max 0

/-- The edge list of the spec's scenario A: two disjoint 5-cycles on
vertices 0-4 and 5-9. -/
def cyclesA : List (Nat × Nat) :=
  [(0, 1), (1, 2), (2, 3), (3, 4), (4, 0),
   (5, 6), (6, 7), (7, 8), (8, 9), (9, 5)]

end GraphBlossom

namespace Swiss

open GraphBlossom

/-- Per-player pairing state (`SwissTournament::PlayerStats`,
swisstournament.h lines 55-59). -/
structure PlayerStats where
  whiteGameDiff : Int
  byeReceived : Bool
deriving DecidableEq, Repr

instance : Inhabited PlayerStats :=
  ⟨{ whiteGameDiff := 0, byeReceived := false }⟩

/-- Sort record for the pairing order (`SwissTournament::PairingData`,
swisstournament.h lines 61-81). -/
structure PairingData where
  playerIndex : Nat
  score : Int
  paired : Bool
deriving DecidableEq, Repr

instance : Inhabited PairingData :=
  ⟨{ playerIndex := 0, score := 0, paired := false }⟩

/-- The comparator `PairingData::operator <`: score descending, then
player index ascending. -/
def PairingData.lt (a b : PairingData) : Bool :=
  if b.score < a.score then true
  else if a.score < b.score then false
  else decide (a.playerIndex < b.playerIndex)

/-- The comparator as a decidable relation, for sorting. -/
def pdRel (a b : PairingData) : Prop :=
  PairingData.lt a b = true

instance : DecidableRel pdRel :=
  fun a b => instDecidableEqBool (PairingData.lt a b) true

/-- Normalized flat index of the encounters table
(`EncountersTable::addEncounter` / `hasMet`, swisstournament.cpp lines
146-160): entry of the pair at `larger * numPlayers + smaller`. -/
def etIdx (n p1 p2 : Nat) : Nat :=
  if p2 < p1 then p1 * n + p2 else p2 * n + p1

/-- Empty encounters table (`EncountersTable::EncountersTable` and
`clear`). -/
def etClear (n : Nat) : List Bool :=
  List.replicate (n * n) false

/-- `EncountersTable::addEncounter`. -/
def etAdd (n : Nat) (t : List Bool) (p1 p2 : Nat) : List Bool :=
  t.set (etIdx n p1 p2) true

/-- `EncountersTable::hasMet`. -/
def etHas (n : Nat) (t : List Bool) (p1 p2 : Nat) : Bool :=
  t.getD (etIdx n p1 p2) false

/-- Ordered index pairs `(i, j)` with `i < j < n`, the iteration order
of the nested loops `for i; for j = i + 1`. -/
def ordPairs (n : Nat) : List (Nat × Nat) :=
  (List.range n).flatMap
    (fun i => (List.range n).filterMap
      (fun j => if i < j then some (i, j) else none))

/-- Embedding of `SwissTournament::rebuildEncountersSet`
(swisstournament.cpp lines 203-242): mark every pairing of rounds
`ignoreRounds .. currentRound - 2` (zero-based) from the encounter
history, then additionally forbid every yet-unmet pairing whose
combined white-game difference exceeds 2 in absolute value.  `hist`
is the flat `m_encounterHistory` vector (`round * gpc + gameInRound`),
`gpc` is `gamesPerCycle()`. -/
def rebuildEncountersSet (n gpc ignoreRounds currentRound : Nat)
    (hist : Nat → Nat × Nat) (stats : List PlayerStats) : List Bool :=
  let t1 := (List.range' ignoreRounds ((currentRound - 1) - ignoreRounds)).foldl
    (fun t r0 =>
      (List.range gpc).foldl
        (fun t g => etAdd n t (hist (r0 * gpc + g)).1 (hist (r0 * gpc + g)).2)
        t)
    (etClear n)
  (ordPairs n).foldl
    (fun t ij =>
      if etHas n t ij.1 ij.2 then t
      else
        let w1 := (stats.getD ij.1 default).whiteGameDiff
        let w2 := (stats.getD ij.2 default).whiteGameDiff
        if 2 < |w1 + w2| then etAdd n t ij.1 ij.2 else t)
    t1

/-- Embedding of `SwissTournament::generatePairingOrder` (lines
244-256).  The source sorts with `qSort`; since the comparator is a
strict total order on the records (all player indices are distinct),
every comparison sort yields the same list, here realized by insertion
sort. -/
def generatePairingOrder (n : Nat) (scores : List Int) :
    List PairingData :=
  List.insertionSort pdRel
    ((List.range n).map
      (fun i => { playerIndex := i, score := scores.getD i 0,
                  paired := false }))

/-- The descending search of `assignByeIfNecessary` (lines 282-299):
give the BYE to the lowest-ordered player without one, crediting
`gamesPerEncounter` won games (`addScore(idx, 2)` per game). -/
def byeScan (gpe : Nat) :
    List Nat → List PairingData × List PlayerStats × List Int →
    List PairingData × List PlayerStats × List Int
  | [], s => s
  | i :: rest, (pd, stats, scores) =>
      let entry := pd.getD i default
      let st := stats.getD entry.playerIndex default
      if st.byeReceived then byeScan gpe rest (pd, stats, scores)
      else
        (pd.set i { entry with paired := true },
         stats.set entry.playerIndex { st with byeReceived := true },
         (List.range gpe).foldl
           (fun sc _ => Tournament.addScore sc entry.playerIndex 2) scores)

/-- Embedding of `SwissTournament::assignByeIfNecessary` (lines
258-300): only for an odd player count; if everyone already had a BYE,
reset all BYE flags first. -/
def assignByeIfNecessary (n gpe : Nat) (pd : List PairingData)
    (stats : List PlayerStats) (scores : List Int) :
    List PairingData × List PlayerStats × List Int :=
  if n % 2 = 0 then (pd, stats, scores)
  else
    let allByes := (List.range n).all
      (fun i => (stats.getD i default).byeReceived)
    let stats1 := if allByes then
        stats.map (fun s => { s with byeReceived := false })
      else stats
    byeScan gpe (List.range n).reverse (pd, stats1, scores)

/-- Embedding of `SwissTournament::tryPairing` (lines 162-201): mark
the tentatively paired players (`-1` stands for no player, as in the
source), build the graph of still-allowed pairings among the unpaired
players, and check that a maximum matching pairs all of them. -/
def tryPairing (n : Nat) (pd : List PairingData) (p1 p2 : Int)
    (enc : List Bool) : Bool :=
  let paired0 := pd.foldl (fun arr e => arr.set e.playerIndex e.paired)
    (List.replicate pd.length false)
  let paired1 := if 0 ≤ p1 then paired0.set p1.toNat true else paired0
  let paired := if 0 ≤ p2 then paired1.set p2.toNat true else paired1
  let built := (List.range pd.length).foldl
    (fun (s : DenseGraph × Nat) i =>
      if ¬ paired.getD i false then
        let g' := ((List.range pd.length).filter
            (fun j => i < j ∧ ¬ paired.getD j false ∧
              ¬ etHas n enc i j)).foldl
          (fun g j => g.insertEdge i j) s.1
        (g', s.2 + 1)
      else s)
    (DenseGraph.mk0 n, 0)
  let matching := findMaximumMatching built.1
  decide (2 * matching.length = built.2)

/-- Embedding of `SwissTournament::determineColorIsFirstWhite` (lines
302-334). -/
def determineColorIsFirstWhite (gpe currentRound : Nat)
    (firstPlayer secondPlayer : Nat) (firstStats secondStats : PlayerStats)
    (scores : List Int) : Bool :=
  if gpe % 2 = 0 then false
  else if firstStats.whiteGameDiff < secondStats.whiteGameDiff then true
  else if secondStats.whiteGameDiff < firstStats.whiteGameDiff then false
  else
    let firstScore := scores.getD firstPlayer 0
    let secondScore := scores.getD secondPlayer 0
    if secondScore < firstScore then false
    else
      match (currentRound - 1) % 4 with
      | 0 => false
      | 1 => true
      | 2 => true
      | _ => false

/-- Position and player index of the first unpaired entry of the
pairing order (`assignPairs`, lines 350-360). -/
def findFirstUnpaired (pd : List PairingData) : List Nat → Option (Nat × Nat)
  | [] => none
  | j :: rest =>
      let entry := pd.getD j default
      if entry.paired then findFirstUnpaired pd rest
      else some (j, entry.playerIndex)

/-- The candidate scan of `assignPairs` (lines 363-384): the first
unpaired later entry that has not met `first` and whose tentative
pairing keeps the round completable (checked through the blossom
matcher). -/
def findMatchScan (n : Nat) (pd : List PairingData) (enc : List Bool)
    (first : Nat) : List Nat → Option (Nat × Nat)
  | [] => none
  | j :: rest =>
      let entry := pd.getD j default
      if entry.paired then findMatchScan n pd enc first rest
      else if etHas n enc first entry.playerIndex then
        findMatchScan n pd enc first rest
      else if ¬ tryPairing n pd
          (Int.ofNat (min first entry.playerIndex))
          (Int.ofNat (max first entry.playerIndex)) enc then
        findMatchScan n pd enc first rest
      else
        some (j, entry.playerIndex)

/-- State of the pairing loop of `assignPairs`: the pairing order with
its `paired` flags, the encounters table, the player stats, the round
pairings vector (filled back to front) and the number of pairs made. -/
structure APState where
  pd : List PairingData
  enc : List Bool
  stats : List PlayerStats
  pairings : List (Nat × Nat)
  pairNo : Nat
deriving Repr

/-- One iteration of the outer pairing loop of
`SwissTournament::assignPairs` (lines 344-431): take the first
unpaired player, find its first acceptable partner, record the
encounter, decide colors and update the white-game differences.  If no
unpaired player is left (unreachable: the loop runs `playerCount / 2`
times over at least `2 * (playerCount / 2)` unpaired non-BYE players)
or no partner is acceptable, the iteration makes no pair. -/
def assignPairsStep (n gpe currentRound : Nat) (scores : List Int)
    (s : APState) : APState :=
  match findFirstUnpaired s.pd (List.range n) with
  | none => s
  | some fu =>
      let pd1 := s.pd.set fu.1 { s.pd.getD fu.1 default with paired := true }
      let first := fu.2
      match findMatchScan n pd1 s.enc first (List.range n) with
      | none => { s with pd := pd1 }
      | some ms =>
          let second := ms.2
          let pd2 := pd1.set ms.1 { pd1.getD ms.1 default with paired := true }
          let enc1 := etAdd n s.enc first second
          let firstStats := s.stats.getD first default
          let secondStats := s.stats.getD second default
          let isFirstWhite := determineColorIsFirstWhite gpe currentRound
            first second firstStats secondStats scores
          let newPair := if isFirstWhite then (first, second)
                         else (second, first)
          let stats1 :=
            if gpe % 2 = 1 then
              if isFirstWhite then
                (s.stats.set first
                  { firstStats with
                    whiteGameDiff := firstStats.whiteGameDiff + 1 }).set
                  second
                  { secondStats with
                    whiteGameDiff := secondStats.whiteGameDiff - 1 }
              else
                (s.stats.set first
                  { firstStats with
                    whiteGameDiff := firstStats.whiteGameDiff - 1 }).set
                  second
                  { secondStats with
                    whiteGameDiff := secondStats.whiteGameDiff + 1 }
            else s.stats
          let pairNo1 := s.pairNo + 1
          { pd := pd2, enc := enc1, stats := stats1,
            pairings := s.pairings.set (s.pairings.length - pairNo1) newPair,
            pairNo := pairNo1 }

/-- Embedding of `SwissTournament::assignPairs` (lines 336-432): the
pairings vector starts as `playerCount / 2` null pairs and the loop
body runs `playerCount / 2` times. -/
def assignPairs (n gpe currentRound : Nat) (scores : List Int)
    (pd : List PairingData) (enc : List Bool) (stats : List PlayerStats) :
    APState :=
  (List.range (n / 2)).foldl
    (fun s _ => assignPairsStep n gpe currentRound scores s)
    { pd := pd, enc := enc, stats := stats,
      pairings := List.replicate (n / 2) (0, 0), pairNo := 0 }

/-- The pairability retry loop of `generateRoundPairings` (lines
463-487): rebuild the encounters table; if no perfect matching of the
unpaired players exists, drop the oldest non-ignored round from the
history and retry.  The fuel mirrors the assertion
`m_ignoreRoundsForEncounters < currentRound()`; if even an empty
history leaves the round unpairable the source loops forever, modelled
here as `none`. -/
def pairableLoop (n gpc currentRound : Nat) (hist : Nat → Nat × Nat)
    (stats : List PlayerStats) (pd : List PairingData) :
    Nat → Nat → Option (List Bool × Nat)
  | 0, _ => none
  | fuel + 1, ignoreRounds =>
      let enc := rebuildEncountersSet n gpc ignoreRounds currentRound
        hist stats
      if tryPairing n pd (-1) (-1) enc then some (enc, ignoreRounds)
      else pairableLoop n gpc currentRound hist stats pd fuel
        (ignoreRounds + 1)

/-- Output of one round of pairing generation. -/
structure RoundOutput where
  pairings : List (Nat × Nat)
  stats : List PlayerStats
  scores : List Int
  ignoreRounds : Nat
deriving Repr

/-- Embedding of `SwissTournament::generateRoundPairings` (lines
435-495) for round `currentRound`: build the pairing order, assign a
BYE if necessary, find a usable encounters table (possibly ignoring
oldest rounds), then assign the pairs and colors.  Returns `none` when
the source's retry loop would not terminate. -/
def generateRoundPairings (n gpe currentRound : Nat) (scores0 : List Int)
    (stats0 : List PlayerStats) (hist : Nat → Nat × Nat)
    (ignoreRounds0 : Nat) : Option RoundOutput :=
  let pd0 := generatePairingOrder n scores0
  let b := assignByeIfNecessary n gpe pd0 stats0 scores0
  match pairableLoop n (n / 2) currentRound hist b.2.1 b.1
      (currentRound + 1) ignoreRounds0 with
  | none => none
  | some ei =>
      let st := assignPairs n gpe currentRound b.2.2 b.1 ei.1 b.2.1
      some { pairings := st.pairings, stats := st.stats, scores := b.2.2,
             ignoreRounds := ei.2 }

/-- Concrete pre-round player stats of a 4-player round-2 scenario:
round 1 paired 1-0 and 3-2, both won by white. -/
def exStats0 : List PlayerStats :=
  [{ whiteGameDiff := -1, byeReceived := false },
   { whiteGameDiff := 1, byeReceived := false },
   { whiteGameDiff := -1, byeReceived := false },
   { whiteGameDiff := 1, byeReceived := false }]

/-- Concrete encounter history of that scenario (flat vector). -/
def exHist : Nat → Nat × Nat :=
  fun i => [(3, 2), (1, 0)].getD i (0, 0)

/-- The round-2 output of `generateRoundPairings` on that scenario. -/
def exRoundOut : RoundOutput :=
  { pairings := [(0, 2), (1, 3)],
    stats := [{ whiteGameDiff := 0, byeReceived := false },
              { whiteGameDiff := 2, byeReceived := false },
              { whiteGameDiff := -2, byeReceived := false },
              { whiteGameDiff := 0, byeReceived := false }],
    scores := [0, 2, 0, 2],
    ignoreRounds := 0 }

end Swiss

namespace Adjudicator

/-- Draw-rule example state: thresholds 40/8/10, counter at 15. -/
def exDraw : GameAdjudicator :=
  { drawMoveNum := 40, drawMoveCount := 8, drawScore := 10,
    drawScoreCount := 15, resignMoveCount := 0, resignScore := 0,
    resignScoreCount := (0, 0), maxGameLength := 0, tbEnabled := false,
    result := Chess.Result.noRes, resignWinnerScoreCount := (0, 0),
    tcecAdjudication := false }

/-- Board sample past move 40 (ply 100). -/
def exDrawBoard : BoardIn :=
  { sideToMove := .white, reversibleMoveCount := 7, plyCount := 100,
    tablebaseResult := Chess.Result.noRes }

/-- State in which both the resign rule and the max-game-length rule
fire within the same `addEval` call. -/
def exOverwrite : GameAdjudicator :=
  { drawMoveNum := 0, drawMoveCount := 0, drawScore := 0,
    drawScoreCount := 0, resignMoveCount := 1, resignScore := -500,
    resignScoreCount := (0, 0), maxGameLength := 10, tbEnabled := false,
    result := Chess.Result.noRes, resignWinnerScoreCount := (0, 0),
    tcecAdjudication := false }

/-- The same state with the max-game-length rule disabled. -/
def exOverwriteNoMax : GameAdjudicator :=
  { exOverwrite with maxGameLength := 0 }

/-- Board at ply 20 (the max-length limit for `maxGameLength = 10`). -/
def exOverwriteBoard : BoardIn :=
  { sideToMove := .black, reversibleMoveCount := 3, plyCount := 20,
    tablebaseResult := Chess.Result.noRes }

/-- State with tablebase adjudication enabled and a non-zero draw
counter. -/
def exTb : GameAdjudicator :=
  { exOverwrite with
    tbEnabled := true,
    drawScoreCount := 5,
    maxGameLength := 0 }

/-- Board whose tablebase probe yields a white win. -/
def exTbBoard : BoardIn :=
  { sideToMove := .black, reversibleMoveCount := 3, plyCount := 20,
    tablebaseResult :=
      { rtype := .normal, winner := some .white, descr := "TB" } }

/-- State holding an already-decided result (the draw-rule result),
with all rules disabled. -/
def exDecided : GameAdjudicator :=
  { exOverwriteNoMax with
    resignMoveCount := 0,
    result := drawRuleResult }

end Adjudicator

/-!
Theorems.  Each claim of the analysis is settled by exactly one
theorem below (plus, where applicable, a counterexample and a
witness).
-/

/-- Claim C7 (counterexample): the claimed game sequence for players
`[A, B, C, D] = [0, 1, 2, 3]` with `swapSides = true`,
`gamesPerEncounter = 2` ends with D-C, C-D, but the schedule produced
by `getPairings` (naive branch, `finalGameCount = 12`) ends with the
colors the other way around: C-D, D-C. -/
theorem RoundRobin.naive_schedule_counterexample :
    RoundRobin.getPairings 4 2 12 true ≠
      [(0, 3), (3, 0), (1, 2), (2, 1), (0, 2), (2, 0), (3, 1), (1, 3),
       (0, 1), (1, 0), (3, 2), (2, 3)] := by
  decide

/-- Claim C7 (amended): the naive round-robin schedule for players
`[A, B, C, D] = [0, 1, 2, 3]` with `swapSides = true`,
`gamesPerEncounter = 2` is A-D, D-A, B-C, C-B, A-C, C-A, D-B, B-D,
A-B, B-A, C-D, D-C: the last encounter has C as white first. -/
theorem RoundRobin.naive_schedule_amended :
    RoundRobin.getPairings 4 2 12 true =
      [(0, 3), (3, 0), (1, 2), (2, 1), (0, 2), (2, 0), (3, 1), (1, 3),
       (0, 1), (1, 0), (2, 3), (3, 2)] := by
  decide

/-- Claim C9 (counterexample): `evalString` does not clamp
out-of-range scores: score 100000 (depth 20) is formatted as
"1000.00", not as the claimed clamp value of 999.99 or -999.99. -/
theorem EvalString.clamp_counterexample :
    EvalString.evalScoreString 20 100000 = "1000.00" ∧
      ¬ (EvalString.evalScoreString 20 100000 = "999.99" ∨
         EvalString.evalScoreString 20 100000 = "-999.99") := by
  decide

/-- Claim C9 (amended): in the PGN evaluation comment, with positive
depth, a score with `|score| > 9900` whose residue
`1000 - (|score| mod 1000)` is below 100 is formatted as the mate
distance `Mn` (`-Mn` for a negative score) with
`n = 1000 - (|score| mod 1000)`; every other score — with no upper
clamp — is formatted as `score / 100` with two decimal places (sign,
integer part, zero-padded two-digit fraction). -/
theorem EvalString.score_format_amended (d s : Int) (hd : 0 < d) :
    (9900 < s.natAbs ∧ 1000 - s.natAbs % 1000 < 100 →
      EvalString.evalScoreString d s =
        (if s < 0 then "-" else "") ++ "M" ++
          toString (1000 - s.natAbs % 1000)) ∧
    (¬ (9900 < s.natAbs ∧ 1000 - s.natAbs % 1000 < 100) →
      EvalString.evalScoreString d s =
        (if s < 0 then "-" else "") ++ toString (s.natAbs / 100) ++ "." ++
          (if s.natAbs % 100 < 10 then "0" ++ toString (s.natAbs % 100)
           else toString (s.natAbs % 100))) := by
  constructor
  · intro h
    simp [EvalString.evalScoreString, hd, h]
  · intro h
    simp [EvalString.evalScoreString, EvalString.fmt2, hd, h]

/-- Claim C9 (witness): the amended formatting theorem applied to the
concrete mate score -9999 at depth 20. -/
theorem EvalString.score_format_amended_witness :
    EvalString.evalScoreString 20 (-9999) =
      (if (-9999 : Int) < 0 then "-" else "") ++ "M" ++
        toString (1000 - (-9999 : Int).natAbs % 1000) :=
  (EvalString.score_format_amended 20 (-9999) (by decide)).1 (by decide)

/-- Claim C10 (counterexample): with tablebase adjudication enabled,
an `addEval` call with depth 0 neither zeroes the shared draw counter
(it stays at 5) nor leaves the result unchanged — the tablebase rule
runs before the forced-move branch. -/
theorem Adjudicator.forced_move_tb_counterexample :
    Adjudicator.exTb.tbEnabled = true ∧
    (0 : Int) ≤ 0 ∧
    (Adjudicator.addEval Adjudicator.exTb Adjudicator.exTbBoard
      { depth := 0, score := 0 }).drawScoreCount = 5 ∧
    (Adjudicator.addEval Adjudicator.exTb Adjudicator.exTbBoard
      { depth := 0, score := 0 }).result ≠ Adjudicator.exTb.result := by
  decide

/-- Claim C10 (amended): when tablebase adjudication is disabled, an
`addEval` call whose evaluation has depth at most 0 only zeroes the
shared draw counter and the mover's resign counter: the opponent's
resign counter, both TCEC resign-winner counters, the configuration
and any previously decided result are unchanged, and no adjudication
rule runs. -/
theorem Adjudicator.forced_move_frame_amended
    (a : Adjudicator.GameAdjudicator) (b : Adjudicator.BoardIn)
    (e : Adjudicator.MoveEvaluation)
    (htb : a.tbEnabled = false) (hd : e.depth ≤ 0) :
    Adjudicator.addEval a b e =
      { a with drawScoreCount := 0,
               resignScoreCount :=
                 Adjudicator.sideSet a.resignScoreCount
                   b.sideToMove.opposite 0 } := by
  simp [Adjudicator.addEval, htb, hd]

/-- Claim C10 (witness): the frame theorem applied at a concrete
adjudicator state and book move. -/
theorem Adjudicator.forced_move_frame_amended_witness :
    Adjudicator.addEval Adjudicator.exOverwrite Adjudicator.exOverwriteBoard
      { depth := 0, score := 0 } =
      { Adjudicator.exOverwrite with
          drawScoreCount := 0,
          resignScoreCount :=
            Adjudicator.sideSet Adjudicator.exOverwrite.resignScoreCount
              Adjudicator.exOverwriteBoard.sideToMove.opposite 0 } :=
  Adjudicator.forced_move_frame_amended Adjudicator.exOverwrite
    Adjudicator.exOverwriteBoard { depth := 0, score := 0 } (by decide)
    (by decide)

/-- Claim C6 (counterexample): a decided result does not stick within
one `addEval` call: at ply 20 with `maxGameLength = 10`, the resign
rule fires (as the run with `maxGameLength = 0` shows) and is then
overwritten by the max-game-length rule in the same call. -/
theorem Adjudicator.result_overwrite_counterexample :
    (Adjudicator.addEval Adjudicator.exOverwrite Adjudicator.exOverwriteBoard
      { depth := 13, score := -600 }).result = Adjudicator.maxMovesResult ∧
    (Adjudicator.addEval Adjudicator.exOverwriteNoMax
      Adjudicator.exOverwriteBoard
      { depth := 13, score := -600 }).result =
        Adjudicator.resignRuleResult
          Adjudicator.exOverwriteBoard.sideToMove.opposite ∧
    Adjudicator.maxMovesResult ≠
      Adjudicator.resignRuleResult
        Adjudicator.exOverwriteBoard.sideToMove.opposite := by
  decide

/-- Claim C8 (counterexample): in a best-of-1 encounter that was tied
1-1 after the regular game (a draw) and extended with one decisive
game to 3-1, two games have been played: 2 is not a multiple of 4, so
the claimed margin is 3 and the claimed behaviour is to request more
games (the lead is only 2) — but `needMoreGames` stops: the code tests
the total points (4), not the number of games, against 4. -/
theorem Knockout.margin_counterexample :
    Knockout.needMoreGames true 1 3 1 false false = false ∧
    (3 : Int) + 1 = 2 * (2 : Nat) ∧
    ¬ ((2 : Nat) % 4 = 0) ∧
    |(3 : Int) - 1| < 3 := by
  decide


/-- Helper: with no strike condition and a clear stop flag,
`shouldWeStop` neither stops nor raises the flag. -/
theorem Knockout.shouldWeStop_no_strikes (gpe : Nat) (f s : Int) :
    Knockout.shouldWeStop gpe f s false false = (false, false) := by
  unfold Knockout.shouldWeStop
  split_ifs <;> simp_all

/-- Claim C8 (amended): for a valid pair with no strike stop, an
encounter after `g` games with scores `f` and `s` (2 points are
awarded per game, so `f + s = 2 g`) needs more games exactly when
either nobody exceeds the best-of-`gamesPerEncounter` target or the
lead is below the minimum margin, where the margin is 2 when the
number of games played is even (equivalently, when the total points
`f + s` are a multiple of 4) and 3 otherwise. -/
theorem Knockout.needMoreGames_margin_amended (gpe g : Nat) (f s : Int)
    (hsum : f + s = 2 * (g : Int)) :
    (Knockout.needMoreGames true gpe f s false false = true ↔
      (max f s ≤ (gpe : Int) ∨
        |f - s| < (if g % 2 = 0 then 2 else 3))) := by
  have hmod : (((f + s) % 4 = 0)) = ((g % 2 = 0)) := by
    apply propext
    constructor
    · intro h
      omega
    · intro h
      omega
  unfold Knockout.needMoreGames
  rw [Knockout.shouldWeStop_no_strikes]
  by_cases hlead : max f s ≤ (gpe : Int)
  · simp [hlead]
  · simp only [hlead, hmod, if_false, ite_self, Bool.not_eq_true, if_true,
      Bool.false_eq_true, not_false_eq_true, ite_true, ite_false, if_neg,
      if_pos]
    by_cases hm : (g % 2 = 0)
    · by_cases hd : (2 : Int) ≤ |f - s|
      · simp [hm, hd]
        try omega
      · simp [hm, hd]
        try omega
    · by_cases hd : (3 : Int) ≤ |f - s|
      · simp [hm, hd]
        try omega
      · simp [hm, hd]
        try omega

/-- Claim C8 (witness): the amended margin rule at the concrete tied,
then-decided best-of-1 encounter (two games played, scores 3 and 1). -/
theorem Knockout.needMoreGames_margin_amended_witness :
    Knockout.needMoreGames true 1 3 1 false false = true ↔
      (max (3 : Int) 1 ≤ (1 : Int) ∨
        |(3 : Int) - 1| < (if (2 : Nat) % 2 = 0 then 2 else 3)) :=
  Knockout.needMoreGames_margin_amended 1 2 3 1 (by decide)

/-- Helper: adding `p` to an in-range player's score adds `p` to the
score total. -/
theorem Tournament.addScore_sum (l : List Int) (i : Nat) (p : Int)
    (hi : i < l.length) :
    (Tournament.addScore l i p).sum = l.sum + p := by
  unfold Tournament.addScore
  rw [List.sum_set']
  simp [hi, List.getD_eq_getElem l 0 hi]

/-- Helper: `addScore` keeps the number of players. -/
theorem Tournament.addScore_length (l : List Int) (i : Nat) (p : Int) :
    (Tournament.addScore l i p).length = l.length := by
  simp [Tournament.addScore]

/-- Helper: the score switch of `onGameFinished` keeps the number of
players. -/
theorem Tournament.onGameFinishedScores_length (scores : List Int)
    (iW iB : Nat) (r : Chess.Result) :
    (Tournament.onGameFinishedScores scores iW iB r).length =
      scores.length := by
  unfold Tournament.onGameFinishedScores
  cases hw : r.winner with
  | none => split_ifs <;> simp [Tournament.addScore_length]
  | some side => cases side <;> split_ifs <;> simp [Tournament.addScore_length]

/-- Helper: a finished game with a winner or a draw, and with neither
a disconnection nor a stalled connection, adds exactly 2 points to the
score total (2+0 to winner and loser, or 1+1 on a draw). -/
theorem Tournament.onGameFinishedScores_sum (scores : List Int)
    (iW iB : Nat) (r : Chess.Result)
    (hW : iW < scores.length) (hB : iB < scores.length)
    (hdec : r.winner ≠ none ∨ r.isDraw = true)
    (hdc : r.rtype ≠ Chess.ResultType.disconnection)
    (hsc : r.rtype ≠ Chess.ResultType.stalledConnection) :
    (Tournament.onGameFinishedScores scores iW iB r).sum = scores.sum + 2 := by
  have hcond : ¬ (r.rtype = Chess.ResultType.disconnection ∨
      r.rtype = Chess.ResultType.stalledConnection) := by
    intro h
    exact h.elim hdc hsc
  unfold Tournament.onGameFinishedScores
  cases hw : r.winner with
  | none =>
      have hdraw : r.isDraw = true := by
        rcases hdec with h | h
        · exact absurd hw h
        · exact h
      simp only [hw, hdraw, if_pos]
      rw [Tournament.addScore_sum _ iB 1
          (by rw [Tournament.addScore_length]; omega),
        Tournament.addScore_sum _ iW 1 hW]
      omega
  | some side =>
      cases side with
      | white =>
          simp only [hw]
          rw [if_neg hcond]
          rw [Tournament.addScore_sum _ iB 0
              (by rw [Tournament.addScore_length]; omega),
            Tournament.addScore_sum _ iW 2 hW]
          omega
      | black =>
          simp only [hw]
          rw [if_neg hcond]
          rw [Tournament.addScore_sum _ iW 0
              (by rw [Tournament.addScore_length]; omega),
            Tournament.addScore_sum _ iB 2 hB]
          omega

/-- Claim C4 (amended): score conservation holds for every run in
which each finished game has a winner or is a draw (no null results)
and no result is a disconnection or stalled connection: if the scores
total `2 x count` on entry, then after processing the games the
scores total `2 x finishedGameCount`.  As stated, the claim fails for
runs containing null (`no result`) games — see the counterexample. -/
theorem Tournament.score_conservation_amended :
    ∀ (games : List Tournament.FinishedGame) (scores : List Int) (count : Nat),
    (∀ g ∈ games, g.iWhite < scores.length ∧ g.iBlack < scores.length ∧
      g.iWhite ≠ g.iBlack ∧
      (g.result.winner ≠ none ∨ g.result.isDraw = true) ∧
      g.result.rtype ≠ Chess.ResultType.disconnection ∧
      g.result.rtype ≠ Chess.ResultType.stalledConnection) →
    scores.sum = 2 * (count : Int) →
    (Tournament.processGames scores count games).1.sum =
      2 * (((Tournament.processGames scores count games).2 : Int)) := by
  intro games
  induction games with
  | nil =>
      intro scores count h hbal
      simpa [Tournament.processGames] using hbal
  | cons g gs ih =>
      intro scores count h hbal
      obtain ⟨hW, hB, hne, hdec, hdc, hsc⟩ := h g (by simp)
      have hlen := Tournament.onGameFinishedScores_length scores g.iWhite
        g.iBlack g.result
      simp only [Tournament.processGames]
      apply ih
      · intro g' hg'
        have := h g' (by simp [hg'])
        rwa [hlen]
      · rw [Tournament.onGameFinishedScores_sum scores g.iWhite g.iBlack
          g.result hW hB hdec hdc hsc, hbal]
        push_cast
        ring

/-- Claim C4 (counterexample): a run consisting of one finished game
with the null result (winner none, type `no result` — e.g. a stopped
game) contains no disconnection or stalled-connection result, yet
after processing it the finished-game count is 1 while the score
total is 0, not `2 x 1`. -/
theorem Tournament.score_conservation_counterexample :
    (Tournament.processGames [0, 0] 0
      [{ iWhite := 0, iBlack := 1, result := Chess.Result.noRes }]).2 = 1 ∧
    (Tournament.processGames [0, 0] 0
      [{ iWhite := 0, iBlack := 1, result := Chess.Result.noRes }]).1.sum = 0 ∧
    ¬ ((0 : Int) = 2 * 1) ∧
    Chess.Result.noRes.rtype ≠ Chess.ResultType.disconnection ∧
    Chess.Result.noRes.rtype ≠ Chess.ResultType.stalledConnection := by
  decide

/-- Claim C4 (witness): conservation on a concrete 4-player run of one
decisive game and one drawn game. -/
theorem Tournament.score_conservation_amended_witness :
    (Tournament.processGames [0, 0, 0, 0] 0
      [{ iWhite := 0, iBlack := 1,
         result := { rtype := .normal, winner := some .white, descr := "" } },
       { iWhite := 2, iBlack := 3,
         result := { rtype := .adjudication, winner := none,
                     descr := "TCEC draw rule" } }]).1.sum =
      2 * (((Tournament.processGames [0, 0, 0, 0] 0
        [{ iWhite := 0, iBlack := 1,
           result := { rtype := .normal, winner := some .white, descr := "" } },
         { iWhite := 2, iBlack := 3,
           result := { rtype := .adjudication, winner := none,
                       descr := "TCEC draw rule" } }]).2 : Int)) :=
  Tournament.score_conservation_amended _ _ _ (by decide) (by decide)

namespace Adjudicator

/-- Helper: the resign section never touches the shared draw counter. -/
theorem resignStep_drawScoreCount (a : GameAdjudicator) (b : BoardIn)
    (e : MoveEvaluation) :
    (resignStep a b e).drawScoreCount = a.drawScoreCount := by
  unfold resignStep
  dsimp only
  split_ifs <;> rfl

/-- Helper: the max-length section never touches the draw counter. -/
theorem maxLengthStep_drawScoreCount (a : GameAdjudicator) (b : BoardIn) :
    (maxLengthStep a b).drawScoreCount = a.drawScoreCount := by
  unfold maxLengthStep
  split_ifs <;> rfl

/-- Helper: the resign section either keeps the result or sets one of
the two resign-rule results. -/
theorem resignStep_result_cases (a : GameAdjudicator) (b : BoardIn)
    (e : MoveEvaluation) :
    (resignStep a b e).result = a.result ∨
    (∃ s, (resignStep a b e).result = tcecWinResult s) ∨
    (∃ s, (resignStep a b e).result = resignRuleResult s) := by
  unfold resignStep
  dsimp only
  split_ifs <;> simp

/-- Helper: the max-length section either keeps the result or sets the
max-moves result. -/
theorem maxLengthStep_result_cases (a : GameAdjudicator) (b : BoardIn) :
    (maxLengthStep a b).result = a.result ∨
    (maxLengthStep a b).result = maxMovesResult := by
  unfold maxLengthStep
  split_ifs <;> simp

/-- Helper: with the draw rule configured, the draw section fires
exactly when the position is not skipped by the TCEC irreversible-move
rule, the move-number threshold is reached, and the updated counter
reaches twice the configured move count. -/
theorem drawStep_fire_iff (a : GameAdjudicator) (b : BoardIn)
    (e : MoveEvaluation) (hnum : 0 < a.drawMoveNum) :
    ((drawStep a b e).2 = true ↔
      (¬ (a.tcecAdjudication = true ∧ b.reversibleMoveCount = 0) ∧
        a.drawMoveNum ≤ b.plyCount / 2 ∧
        a.drawMoveCount * 2 ≤
          (if |e.score| ≤ a.drawScore then a.drawScoreCount + 1 else 0))) := by
  unfold drawStep
  dsimp only
  split_ifs <;> simp_all

/-- Helper: when the draw section fires it sets the draw-rule
result. -/
theorem drawStep_result_of_fire (a : GameAdjudicator) (b : BoardIn)
    (e : MoveEvaluation) (h : (drawStep a b e).2 = true) :
    (drawStep a b e).1.result = drawRuleResult := by
  unfold drawStep at h ⊢
  dsimp only at h ⊢
  split_ifs at h ⊢ <;> simp_all

/-- Helper: when the draw section does not fire it keeps the previous
result. -/
theorem drawStep_result_of_not_fire (a : GameAdjudicator) (b : BoardIn)
    (e : MoveEvaluation) (h : (drawStep a b e).2 = false) :
    (drawStep a b e).1.result = a.result := by
  unfold drawStep at h ⊢
  dsimp only at h ⊢
  split_ifs at h ⊢ <;> simp_all

/-- Helper: under TCEC adjudication, a position reached by an
irreversible move leaves the draw counter unadvanced. -/
theorem drawStep_count_skip (a : GameAdjudicator) (b : BoardIn)
    (e : MoveEvaluation)
    (h : a.tcecAdjudication = true ∧ b.reversibleMoveCount = 0) :
    (drawStep a b e).1.drawScoreCount = a.drawScoreCount := by
  unfold drawStep
  dsimp only
  split_ifs <;> simp_all

/-- Helper: otherwise the draw counter is incremented while the score
stays within the draw threshold and reset to zero by a single ply
outside it. -/
theorem drawStep_count_update (a : GameAdjudicator) (b : BoardIn)
    (e : MoveEvaluation) (hnum : 0 < a.drawMoveNum)
    (h : ¬ (a.tcecAdjudication = true ∧ b.reversibleMoveCount = 0)) :
    (drawStep a b e).1.drawScoreCount =
      (if |e.score| ≤ a.drawScore then a.drawScoreCount + 1 else 0) := by
  unfold drawStep
  dsimp only
  split_ifs <;> simp_all

/-- Helper: with tablebase adjudication disabled and positive depth,
`addEval` is the draw section followed (when it does not fire) by the
resign and max-length sections. -/
theorem addEval_normal_form (a : GameAdjudicator) (b : BoardIn)
    (e : MoveEvaluation) (htb : a.tbEnabled = false)
    (hdepth : 0 < e.depth) :
    addEval a b e =
      (if (drawStep a b e).2 then (drawStep a b e).1
       else maxLengthStep (resignStep (drawStep a b e).1 b e) b) := by
  have hd0 : ¬ (e.depth ≤ 0) := by omega
  unfold addEval
  simp [htb, hd0]

end Adjudicator

/-- Claim C5: with tablebase adjudication off, the draw rule
configured, positive depth and no result decided yet, `addEval`
reports the draw adjudication exactly when the sample is not skipped
by the TCEC irreversible-move rule, at least `draw_move_number` full
moves (`plyCount / 2`) have been played and the updated shared counter
reaches `2 x draw_move_count`; under TCEC a position reached by an
irreversible move leaves the counter unadvanced, and a ply whose
absolute score exceeds the threshold resets the counter to zero. -/
theorem Adjudicator.draw_rule_characterization
    (a : Adjudicator.GameAdjudicator) (b : Adjudicator.BoardIn)
    (e : Adjudicator.MoveEvaluation)
    (htb : a.tbEnabled = false) (hnum : 0 < a.drawMoveNum)
    (hdepth : 0 < e.depth) (hres : a.result = Chess.Result.noRes) :
    ((Adjudicator.addEval a b e).result = Adjudicator.drawRuleResult ↔
      (¬ (a.tcecAdjudication = true ∧ b.reversibleMoveCount = 0) ∧
        a.drawMoveNum ≤ b.plyCount / 2 ∧
        a.drawMoveCount * 2 ≤
          (if |e.score| ≤ a.drawScore then a.drawScoreCount + 1 else 0)))
    ∧ ((a.tcecAdjudication = true ∧ b.reversibleMoveCount = 0) →
        (Adjudicator.addEval a b e).drawScoreCount = a.drawScoreCount)
    ∧ (¬ (a.tcecAdjudication = true ∧ b.reversibleMoveCount = 0) →
        a.drawScore < |e.score| →
        (Adjudicator.addEval a b e).drawScoreCount = 0) := by
  rw [Adjudicator.addEval_normal_form a b e htb hdepth]
  by_cases hfire : (Adjudicator.drawStep a b e).2 = true
  · rw [if_pos hfire]
    have hiff := Adjudicator.drawStep_fire_iff a b e hnum
    have hcond := hiff.mp hfire
    refine ⟨?_, ?_, ?_⟩
    · simp [Adjudicator.drawStep_result_of_fire a b e hfire, hcond]
    · intro h
      exact absurd hcond.1 (by simp [h])
    · intro h hscore
      rw [Adjudicator.drawStep_count_update a b e hnum h]
      simp [not_le.mpr hscore]
  · have hfire' : (Adjudicator.drawStep a b e).2 = false := by
      simpa using hfire
    rw [if_neg (by simp [hfire'])]
    have hpres := Adjudicator.drawStep_result_of_not_fire a b e hfire'
    have hiff := Adjudicator.drawStep_fire_iff a b e hnum
    refine ⟨?_, ?_, ?_⟩
    · constructor
      · intro hlhs
        exfalso
        rcases Adjudicator.maxLengthStep_result_cases
            (Adjudicator.resignStep (Adjudicator.drawStep a b e).1 b e) b with
          hm | hm
        · rcases Adjudicator.resignStep_result_cases
              (Adjudicator.drawStep a b e).1 b e with hr | ⟨s, hr⟩ | ⟨s, hr⟩
          · rw [hm, hr, hpres, hres] at hlhs
            simp [Chess.Result.noRes, Adjudicator.drawRuleResult] at hlhs
          · rw [hm, hr] at hlhs
            simp [Adjudicator.tcecWinResult,
              Adjudicator.drawRuleResult] at hlhs
          · rw [hm, hr] at hlhs
            simp [Adjudicator.resignRuleResult,
              Adjudicator.drawRuleResult] at hlhs
        · rw [hm] at hlhs
          simp [Adjudicator.maxMovesResult,
            Adjudicator.drawRuleResult] at hlhs
      · intro hrhs
        exact absurd (hiff.mpr hrhs) (by simp [hfire'])
    · intro h
      rw [Adjudicator.maxLengthStep_drawScoreCount,
        Adjudicator.resignStep_drawScoreCount,
        Adjudicator.drawStep_count_skip a b e h]
    · intro h hscore
      rw [Adjudicator.maxLengthStep_drawScoreCount,
        Adjudicator.resignStep_drawScoreCount,
        Adjudicator.drawStep_count_update a b e hnum h]
      simp [not_le.mpr hscore]

/-- Claim C6 (amended): with tablebase adjudication disabled, a
decided result is never cleared by `addEval` (the getter keeps
returning a decided result), and a draw-rule firing is returned
unchanged from its call (the draw section returns immediately).  The
claim's stronger statement — that no later rule ever replaces a
decided result — is refuted by the counterexample: the max-length rule
overwrites a resign result fired in the same call. -/
theorem Adjudicator.result_persistence_amended
    (a : Adjudicator.GameAdjudicator) (b : Adjudicator.BoardIn)
    (e : Adjudicator.MoveEvaluation) (htb : a.tbEnabled = false) :
    (a.result.isNone = false →
      (Adjudicator.addEval a b e).result.isNone = false)
    ∧ (0 < a.drawMoveNum → 0 < e.depth →
        ¬ (a.tcecAdjudication = true ∧ b.reversibleMoveCount = 0) →
        a.drawMoveNum ≤ b.plyCount / 2 →
        a.drawMoveCount * 2 ≤
          (if |e.score| ≤ a.drawScore then a.drawScoreCount + 1 else 0) →
        (Adjudicator.addEval a b e).result = Adjudicator.drawRuleResult) := by
  constructor
  · intro hprev
    by_cases hd : e.depth ≤ 0
    · rw [Adjudicator.forced_move_frame_amended a b e htb hd]
      exact hprev
    · rw [Adjudicator.addEval_normal_form a b e htb (by omega)]
      by_cases hfire : (Adjudicator.drawStep a b e).2 = true
      · rw [if_pos hfire, Adjudicator.drawStep_result_of_fire a b e hfire]
        simp [Adjudicator.drawRuleResult, Chess.Result.isNone]
      · have hfire' : (Adjudicator.drawStep a b e).2 = false := by
          simpa using hfire
        rw [if_neg (by simp [hfire'])]
        rcases Adjudicator.maxLengthStep_result_cases
            (Adjudicator.resignStep (Adjudicator.drawStep a b e).1 b e) b with
          hm | hm <;> rw [hm]
        · rcases Adjudicator.resignStep_result_cases
              (Adjudicator.drawStep a b e).1 b e with hr | ⟨s, hr⟩ | ⟨s, hr⟩ <;>
            rw [hr]
          · rw [Adjudicator.drawStep_result_of_not_fire a b e hfire']
            exact hprev
          · simp [Adjudicator.tcecWinResult, Chess.Result.isNone]
          · simp [Adjudicator.resignRuleResult, Chess.Result.isNone]
        · simp [Adjudicator.maxMovesResult, Chess.Result.isNone]
  · intro hnum hdepth h1 h2 h3
    rw [Adjudicator.addEval_normal_form a b e htb hdepth]
    have hfire : (Adjudicator.drawStep a b e).2 = true :=
      (Adjudicator.drawStep_fire_iff a b e hnum).mpr ⟨h1, h2, h3⟩
    rw [if_pos hfire]
    exact Adjudicator.drawStep_result_of_fire a b e hfire

/-- Claim C5 (witness): the characterization at the concrete state
with thresholds 40/8/10, counter 15, ply 100 and score 5. -/
theorem Adjudicator.draw_rule_characterization_witness :
    ((Adjudicator.addEval Adjudicator.exDraw Adjudicator.exDrawBoard
        { depth := 20, score := 5 }).result = Adjudicator.drawRuleResult ↔
      (¬ (Adjudicator.exDraw.tcecAdjudication = true ∧
          Adjudicator.exDrawBoard.reversibleMoveCount = 0) ∧
        Adjudicator.exDraw.drawMoveNum ≤
          Adjudicator.exDrawBoard.plyCount / 2 ∧
        Adjudicator.exDraw.drawMoveCount * 2 ≤
          (if |(5 : Int)| ≤ Adjudicator.exDraw.drawScore then
            Adjudicator.exDraw.drawScoreCount + 1 else 0)))
    ∧ ((Adjudicator.exDraw.tcecAdjudication = true ∧
        Adjudicator.exDrawBoard.reversibleMoveCount = 0) →
        (Adjudicator.addEval Adjudicator.exDraw Adjudicator.exDrawBoard
          { depth := 20, score := 5 }).drawScoreCount =
          Adjudicator.exDraw.drawScoreCount)
    ∧ (¬ (Adjudicator.exDraw.tcecAdjudication = true ∧
          Adjudicator.exDrawBoard.reversibleMoveCount = 0) →
        Adjudicator.exDraw.drawScore < |(5 : Int)| →
        (Adjudicator.addEval Adjudicator.exDraw Adjudicator.exDrawBoard
          { depth := 20, score := 5 }).drawScoreCount = 0) :=
  Adjudicator.draw_rule_characterization Adjudicator.exDraw
    Adjudicator.exDrawBoard { depth := 20, score := 5 } (by decide)
    (by decide) (by decide) (by decide)

/-- Claim C6 (witness): the amended persistence theorem at a concrete
state holding a decided result. -/
theorem Adjudicator.result_persistence_amended_witness :
    (Adjudicator.exDecided.result.isNone = false →
      (Adjudicator.addEval Adjudicator.exDecided Adjudicator.exOverwriteBoard
        { depth := 13, score := 0 }).result.isNone = false)
    ∧ (0 < Adjudicator.exDecided.drawMoveNum → 0 < (13 : Int) →
        ¬ (Adjudicator.exDecided.tcecAdjudication = true ∧
          Adjudicator.exOverwriteBoard.reversibleMoveCount = 0) →
        Adjudicator.exDecided.drawMoveNum ≤
          Adjudicator.exOverwriteBoard.plyCount / 2 →
        Adjudicator.exDecided.drawMoveCount * 2 ≤
          (if |(0 : Int)| ≤ Adjudicator.exDecided.drawScore then
            Adjudicator.exDecided.drawScoreCount + 1 else 0) →
        (Adjudicator.addEval Adjudicator.exDecided Adjudicator.exOverwriteBoard
          { depth := 13, score := 0 }).result = Adjudicator.drawRuleResult) :=
  Adjudicator.result_persistence_amended Adjudicator.exDecided
    Adjudicator.exOverwriteBoard { depth := 13, score := 0 } (by decide)

namespace Swiss

/-- Helper: a predicate preserved by every fold step holds after the
fold. -/
theorem foldl_pred_mono {α β : Type} (f : β → α → β) (P : β → Prop)
    (hmono : ∀ t y, P t → P (f t y)) :
    ∀ (l : List α) (t0 : β), P t0 → P (l.foldl f t0)
  | [], _, h => h
  | y :: ys, t0, h => foldl_pred_mono f P hmono ys (f t0 y) (hmono t0 y h)

/-- Helper: a predicate established by some step of the fold and
preserved by all steps holds after the fold. -/
theorem foldl_pred_of_mem {α β : Type} (f : β → α → β) (P : β → Prop)
    (hmono : ∀ t y, P t → P (f t y)) :
    ∀ (l : List α) (x : α), x ∈ l → (∀ t, P (f t x)) →
      ∀ t0, P (l.foldl f t0)
  | [], x, hx, _, _ => absurd hx (List.not_mem_nil x)
  | y :: ys, x, hx, hstep, t0 => by
      rcases List.mem_cons.mp hx with rfl | hmem
      · exact foldl_pred_mono f P hmono ys (f t0 x) (hstep t0)
      · exact foldl_pred_of_mem f P hmono ys x hmem hstep (f t0 y)

/-- Helper: reading a boolean vector through a single update. -/
theorem getD_set_bool (t : List Bool) (i j : Nat) (v : Bool) :
    (t.set i v).getD j false =
      if i = j ∧ j < t.length then v else t.getD j false := by
  induction t generalizing i j with
  | nil => simp
  | cons x xs ih =>
      cases i with
      | zero =>
          cases j with
          | zero => simp
          | succ j' => simp [Nat.succ_lt_succ_iff]
      | succ i' =>
          cases j with
          | zero => simp
          | succ j' =>
              simp only [List.set_cons_succ, List.getD_cons_succ, ih,
                List.length_cons]
              by_cases hij : i' = j'
              · simp [hij, Nat.succ_lt_succ_iff]
              · simp [hij, fun h => hij (Nat.succ_injective h)]

/-- Helper: reading the encounters table through `addEncounter`. -/
theorem etHas_etAdd (n : Nat) (t : List Bool) (p q a b : Nat) :
    etHas n (etAdd n t p q) a b =
      if etIdx n p q = etIdx n a b ∧ etIdx n a b < t.length then true
      else etHas n t a b := by
  unfold etHas etAdd
  rw [getD_set_bool]

/-- Helper: `addEncounter` never clears a marked pairing. -/
theorem etHas_mono (n : Nat) (t : List Bool) (p q a b : Nat)
    (h : etHas n t a b = true) :
    etHas n (etAdd n t p q) a b = true := by
  rw [etHas_etAdd]
  split_ifs <;> simp [h]

/-- Helper: `addEncounter` keeps the table size. -/
theorem etAdd_length (n : Nat) (t : List Bool) (p q : Nat) :
    (etAdd n t p q).length = t.length := by
  simp [etAdd]

/-- Helper: the normalized cell index is symmetric. -/
theorem etIdx_symm (n a b : Nat) : etIdx n a b = etIdx n b a := by
  unfold etIdx
  split_ifs <;>
    first
    | rfl
    | omega
    | (have hab : a = b := by omega
       subst hab
       rfl)

/-- Helper: the normalized cell index is `max * n + min`. -/
theorem etIdx_norm (n a b : Nat) :
    etIdx n a b = (max a b) * n + min a b := by
  unfold etIdx
  rcases Nat.lt_or_ge b a with h | h
  · rw [if_pos h, Nat.max_eq_left (by omega), Nat.min_eq_right (by omega)]
  · rw [if_neg (by omega), Nat.max_eq_right h, Nat.min_eq_left h]

/-- Helper: cells of in-range pairs lie inside the table. -/
theorem etIdx_lt (n a b : Nat) (ha : a < n) (hb : b < n) :
    etIdx n a b < n * n := by
  rw [etIdx_norm]
  calc (max a b) * n + min a b < (max a b) * n + n :=
        Nat.add_lt_add_left (by omega) _
    _ = (max a b + 1) * n := by ring
    _ ≤ n * n := Nat.mul_le_mul_right n (by omega)

/-- Helper: decomposition of a flat cell index. -/
theorem idx_decompose (n hi lo : Nat) (hlo : lo < n) :
    (hi * n + lo) % n = lo ∧ (hi * n + lo) / n = hi := by
  constructor
  · rw [Nat.mul_comm hi n, Nat.mul_add_mod]
    exact Nat.mod_eq_of_lt hlo
  · rw [Nat.add_comm, Nat.add_mul_div_right _ _ (by omega : 0 < n)]
    rw [Nat.div_eq_of_lt hlo]
    omega

/-- Helper: distinct in-range pairs occupy the same cell only if they
are the same unordered pair. -/
theorem etIdx_inj (n a b p q : Nat) (ha : a < n) (hb : b < n)
    (hpq : p ≠ q) (h : etIdx n p q = etIdx n a b) :
    (p = a ∧ q = b) ∨ (p = b ∧ q = a) := by
  rw [etIdx_norm, etIdx_norm] at h
  have hmaxab : max a b < n := by omega
  have hminab : min a b < n := by omega
  have hminpq : min p q < max p q := by omega
  have hmaxpq : max p q < n := by
    by_contra hcon
    have h1 : n * n ≤ max p q * n := Nat.mul_le_mul_right n (by omega)
    have h2 : max a b * n + min a b < n * n := by
      calc max a b * n + min a b < max a b * n + n :=
            Nat.add_lt_add_left (by omega) _
        _ = (max a b + 1) * n := by ring
        _ ≤ n * n := Nat.mul_le_mul_right n (by omega)
    omega
  have d1 := idx_decompose n (max p q) (min p q) (by omega)
  have d2 := idx_decompose n (max a b) (min a b) (by omega)
  have hmax : max p q = max a b := by
    rw [← d1.2, ← d2.2, h]
  have hmin : min p q = min a b := by
    rw [← d1.1, ← d2.1, h]
  omega


/-- Helper: predicate establishment under an auxiliary fold
invariant. -/
theorem foldl_inv_estab {α β : Type} (f : β → α → β) (I P : β → Prop)
    (hIstep : ∀ t y, I t → I (f t y))
    (hmono : ∀ t y, P t → P (f t y)) :
    ∀ (l : List α) (x : α), x ∈ l → (∀ t, I t → P (f t x)) →
      ∀ t0, I t0 → P (l.foldl f t0)
  | [], x, hx, _, _, _ => absurd hx (List.not_mem_nil x)
  | y :: ys, x, hx, hstep, t0, hI0 => by
      rcases List.mem_cons.mp hx with rfl | hmem
      · exact foldl_pred_mono f P hmono ys (f t0 x) (hstep t0 hI0)
      · exact foldl_inv_estab f I P hIstep hmono ys x hmem hstep (f t0 y)
          (hIstep t0 y hI0)

/-- Helper: normalizing a pair to (min, max) does not change its
cell. -/
theorem etIdx_minmax (n a b : Nat) :
    etIdx n (min a b) (max a b) = etIdx n a b := by
  rw [etIdx_norm, etIdx_norm]
  have h1 : max (min a b) (max a b) = max a b := by omega
  have h2 : min (min a b) (max a b) = min a b := by omega
  rw [h1, h2]

/-- Helper: the rebuilt encounters table has `n * n` cells. -/
theorem rebuild_length (n gpc ig cr : Nat) (hist : Nat → Nat × Nat)
    (stats : List PlayerStats) :
    (rebuildEncountersSet n gpc ig cr hist stats).length = n * n := by
  unfold rebuildEncountersSet
  apply foldl_pred_mono _ (fun t : List Bool => t.length = n * n)
  · intro t y h
    dsimp only
    split_ifs <;> simp [etAdd_length, h]
  · apply foldl_pred_mono _ (fun t : List Bool => t.length = n * n)
    · intro t y h
      apply foldl_pred_mono _ (fun t : List Bool => t.length = n * n)
      · intro t g h
        simp [etAdd_length, h]
      · exact h
    · simp [etClear]

/-- Helper: every pairing recorded in a non-ignored history round is
marked in the rebuilt encounters table. -/
theorem rebuild_hist_met (n gpc ig cr : Nat) (hist : Nat → Nat × Nat)
    (stats : List PlayerStats) (r0 g : Nat)
    (hr1 : ig ≤ r0) (hr2 : r0 + 1 < cr) (hg : g < gpc)
    (a b : Nat) (ha : a < n) (hb : b < n)
    (hpair : hist (r0 * gpc + g) = (a, b) ∨ hist (r0 * gpc + g) = (b, a)) :
    etHas n (rebuildEncountersSet n gpc ig cr hist stats) a b = true := by
  unfold rebuildEncountersSet
  apply foldl_pred_mono _ (fun t : List Bool => etHas n t a b = true)
  · intro t y h
    dsimp only
    split_ifs <;> first | exact h | exact etHas_mono n t y.1 y.2 a b h
  · apply foldl_inv_estab _ (fun t : List Bool => t.length = n * n)
      (fun t : List Bool => etHas n t a b = true) _ _ _ r0 _ _ _ _
    · intro t y h
      apply foldl_pred_mono _ (fun t : List Bool => t.length = n * n)
      · intro t g' h'
        simp [etAdd_length, h']
      · exact h
    · intro t y h
      apply foldl_pred_mono _ (fun t : List Bool => etHas n t a b = true)
      · intro t g' h'
        exact etHas_mono n t _ _ a b h'
      · exact h
    · simp only [List.mem_range']
      exact ⟨r0 - ig, by omega, by omega⟩
    · intro t ht
      apply foldl_inv_estab _ (fun t : List Bool => t.length = n * n)
        (fun t : List Bool => etHas n t a b = true) _ _ _ g _ _ _ ht
      · intro t g' h'
        simp [etAdd_length, h']
      · intro t g' h'
        exact etHas_mono n t _ _ a b h'
      · exact List.mem_range.mpr hg
      · intro t ht'
        rw [etHas_etAdd]
        rw [if_pos]
        constructor
        · rcases hpair with hp | hp <;> rw [hp] <;> dsimp only
          exact etIdx_symm n b a
        · rw [ht']
          exact etIdx_lt n a b ha hb
    · simp [etClear]

/-- Helper: the normalized form of an in-range pair is visited by the
ordered-pair scan. -/
theorem min_max_mem_ordPairs (n a b : Nat) (ha : a < n) (hb : b < n)
    (hab : a ≠ b) :
    (min a b, max a b) ∈ ordPairs n := by
  unfold ordPairs
  rw [List.mem_flatMap]
  refine ⟨min a b, List.mem_range.mpr (by omega), ?_⟩
  rw [List.mem_filterMap]
  refine ⟨max a b, List.mem_range.mpr (by omega), ?_⟩
  rw [if_pos (by omega)]

/-- Helper: every pair whose white-game differences sum to more than 2
in absolute value is marked in the rebuilt encounters table. -/
theorem rebuild_wgd_met (n gpc ig cr : Nat) (hist : Nat → Nat × Nat)
    (stats : List PlayerStats) (a b : Nat) (ha : a < n) (hb : b < n)
    (hab : a ≠ b)
    (hw : 2 < |(stats.getD a default).whiteGameDiff +
      (stats.getD b default).whiteGameDiff|) :
    etHas n (rebuildEncountersSet n gpc ig cr hist stats) a b = true := by
  unfold rebuildEncountersSet
  have hlen1 : ((List.range' ig ((cr - 1) - ig)).foldl
      (fun t r0 => (List.range gpc).foldl
        (fun t g => etAdd n t (hist (r0 * gpc + g)).1 (hist (r0 * gpc + g)).2)
        t)
      (etClear n)).length = n * n := by
    apply foldl_pred_mono _ (fun t : List Bool => t.length = n * n)
    · intro t y h
      apply foldl_pred_mono _ (fun t : List Bool => t.length = n * n)
      · intro t g h
        simp [etAdd_length, h]
      · exact h
    · simp [etClear]
  apply foldl_inv_estab _ (fun t : List Bool => t.length = n * n)
    (fun t : List Bool => etHas n t a b = true) _ _ _
    (min a b, max a b) (min_max_mem_ordPairs n a b ha hb hab) _ _ hlen1
  · intro t y h
    dsimp only
    split_ifs <;> simp [etAdd_length, h]
  · intro t y h
    dsimp only
    split_ifs <;> first | exact h | exact etHas_mono n t y.1 y.2 a b h
  · intro t ht
    by_cases hmet : etHas n t (min a b) (max a b) = true
    · rw [if_pos hmet]
      have : etHas n t (min a b) (max a b) = etHas n t a b := by
        unfold etHas
        rw [etIdx_minmax]
      rwa [this] at hmet
    · rw [if_neg hmet]
      have hsum : (stats.getD (min a b) default).whiteGameDiff +
          (stats.getD (max a b) default).whiteGameDiff =
          (stats.getD a default).whiteGameDiff +
            (stats.getD b default).whiteGameDiff := by
        rcases Nat.le_total a b with h | h
        · rw [Nat.min_eq_left h, Nat.max_eq_right h]
        · rw [Nat.min_eq_right h, Nat.max_eq_left h]
          ring
      rw [if_pos (by rw [hsum]; exact hw)]
      rw [etHas_etAdd]
      rw [if_pos ⟨etIdx_minmax n a b, by rw [ht]; exact etIdx_lt n a b ha hb⟩]


/-- Helper: reading any list through a single update. -/
theorem getD_set_poly {α : Type} (l : List α) (i j : Nat) (v d : α) :
    (l.set i v).getD j d = if i = j ∧ j < l.length then v else l.getD j d := by
  induction l generalizing i j with
  | nil => simp
  | cons x xs ih =>
      cases i with
      | zero =>
          cases j with
          | zero => simp
          | succ j' => simp [Nat.succ_lt_succ_iff]
      | succ i' =>
          cases j with
          | zero => simp
          | succ j' =>
              simp only [List.set_cons_succ, List.getD_cons_succ, ih,
                List.length_cons]
              by_cases hij : i' = j'
              · simp [hij, Nat.succ_lt_succ_iff]
              · simp [hij, fun h => hij (Nat.succ_injective h)]

/-- Helper: what the first-unpaired scan of `assignPairs`
guarantees. -/
theorem findFirstUnpaired_spec (pd : List PairingData) :
    ∀ (l : List Nat) (fu : Nat × Nat), findFirstUnpaired pd l = some fu →
      fu.1 ∈ l ∧ (pd.getD fu.1 default).paired = false ∧
        fu.2 = (pd.getD fu.1 default).playerIndex
  | [], fu, h => by simp [findFirstUnpaired] at h
  | j :: rest, fu, h => by
      unfold findFirstUnpaired at h
      dsimp only at h
      split_ifs at h with hp
      · rcases findFirstUnpaired_spec pd rest fu h with ⟨h1, h2, h3⟩
        exact ⟨List.mem_cons_of_mem j h1, h2, h3⟩
      · cases h
        exact ⟨List.mem_cons_self j rest, by simpa using hp, rfl⟩

/-- Helper: what the candidate scan of `assignPairs` guarantees about
an accepted partner, in particular that the pair is not marked in the
current encounters table. -/
theorem findMatchScan_spec (n : Nat) (pd : List PairingData)
    (enc : List Bool) (first : Nat) :
    ∀ (l : List Nat) (ms : Nat × Nat), findMatchScan n pd enc first l = some ms →
      ms.1 ∈ l ∧ (pd.getD ms.1 default).paired = false ∧
        ms.2 = (pd.getD ms.1 default).playerIndex ∧
        etHas n enc first ms.2 = false
  | [], ms, h => by simp [findMatchScan] at h
  | j :: rest, ms, h => by
      unfold findMatchScan at h
      dsimp only at h
      split_ifs at h with h1 h2 h3
      · rcases findMatchScan_spec n pd enc first rest ms h with ⟨g1, g2, g3, g4⟩
        exact ⟨List.mem_cons_of_mem j g1, g2, g3, g4⟩
      · rcases findMatchScan_spec n pd enc first rest ms h with ⟨g1, g2, g3, g4⟩
        exact ⟨List.mem_cons_of_mem j g1, g2, g3, g4⟩
      · cases h
        refine ⟨List.mem_cons_self j rest, ?_, rfl, ?_⟩
        · simpa using h1
        · simpa using h2
      · rcases findMatchScan_spec n pd enc first rest ms h with ⟨g1, g2, g3, g4⟩
        exact ⟨List.mem_cons_of_mem j g1, g2, g3, g4⟩


/-- Helper: updates that keep an entry's player index keep the player
column of the pairing order. -/
theorem map_playerIndex_set (pd : List PairingData) (j : Nat) (e : PairingData)
    (he : e.playerIndex = (pd.getD j default).playerIndex) :
    (pd.set j e).map (fun x => x.playerIndex) =
      pd.map (fun x => x.playerIndex) := by
  induction pd generalizing j with
  | nil => simp
  | cons x xs ih =>
      cases j with
      | zero =>
          simp only [List.set_cons_zero, List.map_cons, List.cons.injEq]
          exact ⟨by simpa using he, trivial⟩
      | succ j' =>
          simp only [List.set_cons_succ, List.map_cons, List.cons.injEq]
          exact ⟨trivial, ih j' (by simpa using he)⟩

/-- Helper: the BYE scan keeps the player column of the pairing
order. -/
theorem byeScan_fst_map (gpe : Nat) :
    ∀ (l : List Nat) (st : List PairingData × List PlayerStats × List Int),
      ((byeScan gpe l st).1).map (fun x => x.playerIndex) =
        (st.1).map (fun x => x.playerIndex)
  | [], _ => rfl
  | i :: rest, (pd, stats, scores) => by
      unfold byeScan
      dsimp only
      split_ifs with hb
      · exact byeScan_fst_map gpe rest (pd, stats, scores)
      · exact map_playerIndex_set pd i _ rfl

/-- Helper: the BYE scan never changes a white-game difference. -/
theorem byeScan_wgd (gpe : Nat) (k : Nat) :
    ∀ (l : List Nat) (st : List PairingData × List PlayerStats × List Int),
      (((byeScan gpe l st).2.1).getD k default).whiteGameDiff =
        (((st.2.1)).getD k default).whiteGameDiff
  | [], _ => rfl
  | i :: rest, (pd, stats, scores) => by
      unfold byeScan
      dsimp only
      split_ifs with hb
      · exact byeScan_wgd gpe k rest (pd, stats, scores)
      · dsimp only
        rw [getD_set_poly]
        split_ifs with hcase
        · rw [← hcase.1]
        · rfl

/-- Helper: the BYE step keeps the player column of the pairing
order. -/
theorem assignByeIfNecessary_fst_map (n gpe : Nat) (pd : List PairingData)
    (stats : List PlayerStats) (scores : List Int) :
    ((assignByeIfNecessary n gpe pd stats scores).1).map
        (fun x => x.playerIndex) = pd.map (fun x => x.playerIndex) := by
  unfold assignByeIfNecessary
  dsimp only
  split_ifs
  · rfl
  · exact byeScan_fst_map gpe _ _
  · exact byeScan_fst_map gpe _ _

/-- Helper: resetting BYE flags keeps the white-game differences. -/
theorem map_wgd_getD (stats : List PlayerStats) (k : Nat) :
    (((stats.map (fun s : PlayerStats =>
        { s with byeReceived := false })).getD k
        default)).whiteGameDiff = ((stats.getD k default)).whiteGameDiff := by
  by_cases hk : k < stats.length
  · rw [List.getD_eq_getElem _ _ (by simpa using hk),
      List.getD_eq_getElem _ _ hk]
    simp
  · rw [List.getD_eq_default _ _ (by simpa using hk),
      List.getD_eq_default _ _ (by omega)]

/-- Helper: the BYE step never changes a white-game difference. -/
theorem assignByeIfNecessary_wgd (n gpe : Nat) (pd : List PairingData)
    (stats : List PlayerStats) (scores : List Int) (k : Nat) :
    (((assignByeIfNecessary n gpe pd stats scores).2.1).getD k
        default).whiteGameDiff =
      ((stats.getD k default)).whiteGameDiff := by
  unfold assignByeIfNecessary
  dsimp only
  split_ifs
  · rfl
  · rw [byeScan_wgd]
    exact map_wgd_getD stats k
  · rw [byeScan_wgd]

/-- Helper: a successful pairability loop returns the encounters table
rebuilt at the returned ignore-rounds value. -/
theorem pairableLoop_spec (n gpc cr : Nat) (hist : Nat → Nat × Nat)
    (stats : List PlayerStats) (pd : List PairingData) :
    ∀ (fuel ig : Nat) (out : List Bool × Nat),
      pairableLoop n gpc cr hist stats pd fuel ig = some out →
      out.1 = rebuildEncountersSet n gpc out.2 cr hist stats
  | 0, _, _, h => by simp [pairableLoop] at h
  | fuel + 1, ig, out, h => by
      unfold pairableLoop at h
      dsimp only at h
      split_ifs at h with ht
      · cases h
        rfl
      · exact pairableLoop_spec n gpc cr hist stats pd fuel (ig + 1) out h


/-- Helper: one iteration of the pairing loop preserves the pairing
invariant: the player column is unchanged, the encounters table only
grows, and every recorded pair is an in-range pair of distinct players
that is unmarked in the round's initial encounters table. -/
theorem assignPairsStep_inv (n gpe cr : Nat) (scores : List Int)
    (enc0 : List Bool) (P0 : List Nat)
    (hP0nodup : P0.Nodup) (hP0mem : ∀ x ∈ P0, x < n) (hP0len : P0.length = n)
    (s : APState)
    (hmap : s.pd.map (fun e => e.playerIndex) = P0)
    (hsup : ∀ a b, etHas n enc0 a b = true → etHas n s.enc a b = true)
    (hpairs : ∀ p ∈ s.pairings, p = (0, 0) ∨
      (p.1 < n ∧ p.2 < n ∧ p.1 ≠ p.2 ∧ etHas n enc0 p.1 p.2 = false)) :
    ((assignPairsStep n gpe cr scores s).pd.map
        (fun e => e.playerIndex) = P0) ∧
    (∀ a b, etHas n enc0 a b = true →
      etHas n (assignPairsStep n gpe cr scores s).enc a b = true) ∧
    (∀ p ∈ (assignPairsStep n gpe cr scores s).pairings, p = (0, 0) ∨
      (p.1 < n ∧ p.2 < n ∧ p.1 ≠ p.2 ∧ etHas n enc0 p.1 p.2 = false)) := by
  have hlen : s.pd.length = n := by
    have h1 : (s.pd.map (fun e => e.playerIndex)).length = P0.length := by
      rw [hmap]
    simpa [hP0len] using h1
  unfold assignPairsStep
  cases hfu : findFirstUnpaired s.pd (List.range n) with
  | none => exact ⟨hmap, hsup, hpairs⟩
  | some fu =>
      dsimp only
      obtain ⟨hfu1, hfu2, hfu3⟩ := findFirstUnpaired_spec _ _ _ hfu
      have hfu1n : fu.1 < n := List.mem_range.mp hfu1
      set e1 : PairingData := { s.pd.getD fu.1 default with paired := true }
        with he1
      set pd1 : List PairingData := s.pd.set fu.1 e1 with hpd1
      have hmap1 : pd1.map (fun e => e.playerIndex) = P0 := by
        rw [hpd1, map_playerIndex_set s.pd fu.1 e1 (by rw [he1]), hmap]
      have hlen1 : pd1.length = n := by
        rw [hpd1]
        simpa using hlen
      cases hms : findMatchScan n pd1 s.enc fu.2 (List.range n) with
      | none => exact ⟨hmap1, hsup, hpairs⟩
      | some ms =>
          dsimp only
          obtain ⟨hms1, hms2, hms3, hms4⟩ := findMatchScan_spec _ _ _ _ _ _ hms
          have hms1n : ms.1 < n := List.mem_range.mp hms1
          have hpos : ms.1 ≠ fu.1 := by
            intro hcon
            rw [hcon, hpd1, getD_set_poly, if_pos ⟨rfl, by omega⟩, he1] at hms2
            simp at hms2
          have hgetfu : (pd1.getD fu.1 default).playerIndex = fu.2 := by
            rw [hpd1, getD_set_poly, if_pos ⟨rfl, by omega⟩, he1, hfu3]
          have hP0get : ∀ j : Nat, j < n →
              (pd1.getD j default).playerIndex = P0.getD j 0 := by
            intro j hj
            have hj' : j < pd1.length := by omega
            have hx : (pd1.map (fun e => e.playerIndex)).getD j 0 =
                P0.getD j 0 := by
              rw [hmap1]
            rw [← hx,
              List.getD_eq_getElem (pd1.map (fun e => e.playerIndex)) 0
                (by simpa using hj'),
              List.getD_eq_getElem pd1 default hj']
            simp
          have hfu2n : fu.2 < n := by
            have hx := hP0get fu.1 hfu1n
            rw [hgetfu] at hx
            apply hP0mem
            rw [hx, List.getD_eq_getElem _ _ (by omega : fu.1 < P0.length)]
            exact List.getElem_mem _
          have hms2n : ms.2 < n := by
            have hx := hP0get ms.1 hms1n
            rw [← hms3] at hx
            apply hP0mem
            rw [hx, List.getD_eq_getElem _ _ (by omega : ms.1 < P0.length)]
            exact List.getElem_mem _
          have hne : fu.2 ≠ ms.2 := by
            intro hcon
            have e2 := hP0get fu.1 hfu1n
            have e3 := hP0get ms.1 hms1n
            rw [hgetfu] at e2
            rw [← hms3] at e3
            have e4 : P0.getD fu.1 0 = P0.getD ms.1 0 := by
              rw [← e2, ← e3, hcon]
            rw [List.getD_eq_getElem _ _ (by omega : fu.1 < P0.length),
              List.getD_eq_getElem _ _ (by omega : ms.1 < P0.length)] at e4
            exact hpos ((List.Nodup.getElem_inj_iff hP0nodup).mp e4.symm)
          have hnomet : etHas n enc0 fu.2 ms.2 = false := by
            by_contra hcon
            have hx : etHas n s.enc fu.2 ms.2 = true := by
              apply hsup
              simpa using hcon
            rw [hx] at hms4
            simp at hms4
          refine ⟨?_, ?_, ?_⟩
          · rw [map_playerIndex_set pd1 ms.1
              { pd1.getD ms.1 default with paired := true } rfl, hmap1]
          · intro a b hab
            exact etHas_mono n s.enc fu.2 ms.2 a b (hsup a b hab)
          · intro p hp
            rcases List.mem_or_eq_of_mem_set hp with hmem | heq
            · exact hpairs p hmem
            · right
              have hnomet2 : etHas n enc0 ms.2 fu.2 = false := by
                unfold etHas
                unfold etHas at hnomet
                rw [etIdx_symm]
                exact hnomet
              rw [heq]
              split_ifs with hc
              · exact ⟨hfu2n, hms2n, hne, hnomet⟩
              · exact ⟨hms2n, hfu2n, fun hcon => hne hcon.symm, hnomet2⟩


/-- Helper: the pairing loop only records in-range pairs of distinct
players that are unmarked in the round's initial encounters table. -/
theorem assignPairs_inv (n gpe cr : Nat) (scores : List Int)
    (enc0 : List Bool) (P0 : List Nat)
    (hP0nodup : P0.Nodup) (hP0mem : ∀ x ∈ P0, x < n) (hP0len : P0.length = n)
    (pd : List PairingData) (stats : List PlayerStats)
    (hmap : pd.map (fun e => e.playerIndex) = P0) :
    ∀ p ∈ (assignPairs n gpe cr scores pd enc0 stats).pairings, p = (0, 0) ∨
      (p.1 < n ∧ p.2 < n ∧ p.1 ≠ p.2 ∧ etHas n enc0 p.1 p.2 = false) := by
  unfold assignPairs
  have h := foldl_pred_mono (fun s _ => assignPairsStep n gpe cr scores s)
    (fun s : APState =>
      (s.pd.map (fun e => e.playerIndex) = P0) ∧
      (∀ a b, etHas n enc0 a b = true → etHas n s.enc a b = true) ∧
      (∀ p ∈ s.pairings, p = (0, 0) ∨
        (p.1 < n ∧ p.2 < n ∧ p.1 ≠ p.2 ∧ etHas n enc0 p.1 p.2 = false)))
    (fun t y ht => assignPairsStep_inv n gpe cr scores enc0 P0 hP0nodup
      hP0mem hP0len t ht.1 ht.2.1 ht.2.2)
    (List.range (n / 2))
    { pd := pd, enc := enc0, stats := stats,
      pairings := List.replicate (n / 2) (0, 0), pairNo := 0 }
    ⟨hmap, fun a b hab => hab, by
      intro p hp
      left
      exact List.eq_of_mem_replicate hp⟩
  exact h.2.2

/-- Helper: the player column of the sorted pairing order is a
permutation of the player indices. -/
theorem generatePairingOrder_map_perm (n : Nat) (scores : List Int) :
    ((generatePairingOrder n scores).map
      (fun e => e.playerIndex)).Perm (List.range n) := by
  unfold generatePairingOrder
  have h1 := List.perm_insertionSort pdRel
    ((List.range n).map (fun i =>
      ({ playerIndex := i, score := scores.getD i 0,
         paired := false } : PairingData)))
  have h2 := h1.map (fun e => e.playerIndex)
  rw [List.map_map] at h2
  have h3 : (List.map ((fun e => e.playerIndex) ∘ fun i =>
      ({ playerIndex := i, score := scores.getD i 0,
         paired := false } : PairingData)) (List.range n)) = List.range n := by
    have h4 : ((fun e => e.playerIndex) ∘ fun i =>
        ({ playerIndex := i, score := scores.getD i 0,
           paired := false } : PairingData)) = fun i : Nat => i := rfl
    rw [h4]
    exact List.map_id' (List.range n)
  rw [h3] at h2
  exact h2

/-- Claim C3: every pair produced by a (terminating) run of
`generateRoundPairings` for round `currentRound` consists of two
distinct in-range players that were not paired together in any
non-ignored earlier round — that is, in no round `r0` (zero-based)
with `ignoreRoundsForEncounters <= r0 <= currentRound - 2`, for the
final value of `ignoreRoundsForEncounters` — and whose white-game
differences, as they stand when the pair is formed (the BYE step
never changes them, and a player's difference is unchanged until the
player is paired), sum to at most 2 in absolute value. -/
theorem generateRoundPairings_no_rematch
    (n gpe currentRound : Nat) (scores0 : List Int)
    (stats0 : List PlayerStats) (hist : Nat → Nat × Nat)
    (ignoreRounds0 : Nat) (out : RoundOutput)
    (hout : generateRoundPairings n gpe currentRound scores0 stats0 hist
      ignoreRounds0 = some out) :
    ∀ p ∈ out.pairings, p ≠ (0, 0) →
      (p.1 < n ∧ p.2 < n ∧ p.1 ≠ p.2) ∧
      (∀ r0 g, out.ignoreRounds ≤ r0 → r0 + 1 < currentRound → g < n / 2 →
        hist (r0 * (n / 2) + g) ≠ (p.1, p.2) ∧
        hist (r0 * (n / 2) + g) ≠ (p.2, p.1)) ∧
      |(stats0.getD p.1 default).whiteGameDiff +
        (stats0.getD p.2 default).whiteGameDiff| ≤ 2 := by
  unfold generateRoundPairings at hout
  dsimp only at hout
  cases hpl : pairableLoop n (n / 2) currentRound hist
      (assignByeIfNecessary n gpe (generatePairingOrder n scores0) stats0
        scores0).2.1
      (assignByeIfNecessary n gpe (generatePairingOrder n scores0) stats0
        scores0).1
      (currentRound + 1) ignoreRounds0 with
  | none =>
      rw [hpl] at hout
      simp at hout
  | some ei =>
      rw [hpl] at hout
      dsimp only at hout
      have henc := pairableLoop_spec n (n / 2) currentRound hist _ _ _ _ _ hpl
      have hP0perm := generatePairingOrder_map_perm n scores0
      have hmapB := assignByeIfNecessary_fst_map n gpe
        (generatePairingOrder n scores0) stats0 scores0
      -- the playerIndex column of the pairing order after the BYE step
      have hperm : (((assignByeIfNecessary n gpe
          (generatePairingOrder n scores0) stats0 scores0).1).map
            (fun e => e.playerIndex)).Perm (List.range n) := by
        rw [hmapB]
        exact hP0perm
      have hnodup : (((assignByeIfNecessary n gpe
          (generatePairingOrder n scores0) stats0 scores0).1).map
            (fun e => e.playerIndex)).Nodup :=
        hperm.nodup_iff.mpr (List.nodup_range n)
      have hmem : ∀ x ∈ ((assignByeIfNecessary n gpe
          (generatePairingOrder n scores0) stats0 scores0).1).map
            (fun e => e.playerIndex), x < n := by
        intro x hx
        exact List.mem_range.mp (hperm.mem_iff.mp hx)
      have hlenP : (((assignByeIfNecessary n gpe
          (generatePairingOrder n scores0) stats0 scores0).1).map
            (fun e => e.playerIndex)).length = n := by
        simpa using hperm.length_eq
      have hpairs := assignPairs_inv n gpe currentRound
        (assignByeIfNecessary n gpe (generatePairingOrder n scores0) stats0
          scores0).2.2
        ei.1 _ hnodup hmem hlenP
        (assignByeIfNecessary n gpe (generatePairingOrder n scores0) stats0
          scores0).1
        (assignByeIfNecessary n gpe (generatePairingOrder n scores0) stats0
          scores0).2.1
        rfl
      cases hout
      intro p hp hne
      dsimp only at hp
      rcases hpairs p hp with rfl | ⟨h1, h2, h3, h4⟩
      · exact absurd rfl hne
      · refine ⟨⟨h1, h2, h3⟩, ?_, ?_⟩
        · intro r0 g hr0 hr1 hg
          constructor
          · intro hcon
            have := rebuild_hist_met n (n / 2) ei.2 currentRound hist
              (assignByeIfNecessary n gpe (generatePairingOrder n scores0)
                stats0 scores0).2.1 r0 g hr0 hr1 hg p.1 p.2 h1 h2
              (Or.inl hcon)
            rw [← henc] at this
            rw [this] at h4
            simp at h4
          · intro hcon
            have := rebuild_hist_met n (n / 2) ei.2 currentRound hist
              (assignByeIfNecessary n gpe (generatePairingOrder n scores0)
                stats0 scores0).2.1 r0 g hr0 hr1 hg p.1 p.2 h1 h2
              (Or.inr hcon)
            rw [← henc] at this
            rw [this] at h4
            simp at h4
        · by_contra hcon
          have hgt : 2 < |(((assignByeIfNecessary n gpe
              (generatePairingOrder n scores0) stats0 scores0).2.1).getD p.1
                default).whiteGameDiff +
              (((assignByeIfNecessary n gpe (generatePairingOrder n scores0)
                stats0 scores0).2.1).getD p.2 default).whiteGameDiff| := by
            rw [assignByeIfNecessary_wgd, assignByeIfNecessary_wgd]
            omega
          have := rebuild_wgd_met n (n / 2) ei.2 currentRound hist
            (assignByeIfNecessary n gpe (generatePairingOrder n scores0)
              stats0 scores0).2.1 p.1 p.2 h1 h2 h3 hgt
          rw [← henc] at this
          rw [this] at h4
          simp at h4


/-- Claim C3 (witness): the no-rematch and color-balance properties at
the concrete 4-player second round whose first round paired 1-0 and
3-2 (both wins for white). -/
theorem generateRoundPairings_no_rematch_witness :
    ((0, 2) : Nat × Nat) ∈ exRoundOut.pairings ∧
    (((0 : Nat) < 4 ∧ (2 : Nat) < 4 ∧ (0 : Nat) ≠ 2) ∧
     (∀ r0 g, exRoundOut.ignoreRounds ≤ r0 → r0 + 1 < 2 → g < 4 / 2 →
       exHist (r0 * (4 / 2) + g) ≠ (0, 2) ∧
       exHist (r0 * (4 / 2) + g) ≠ (2, 0)) ∧
     |((exStats0.getD 0 default)).whiteGameDiff +
       ((exStats0.getD 2 default)).whiteGameDiff| ≤ 2) :=
  ⟨by decide,
   generateRoundPairings_no_rematch 4 1 2 [0, 2, 0, 2] exStats0 exHist 0
     exRoundOut (by rfl) (0, 2) (by decide) (by decide)⟩

end Swiss

namespace GraphBlossom

set_option maxRecDepth 1000000 in
/-- Scenario A, first half: on the two disjoint 5-cycles the matcher
returns a matching of cardinality 4, and brute force over all edge
sub-lists confirms 4 is the maximum cardinality of any matching of
that graph. -/
theorem scenarioA_maximum :
    (findMaximumMatching (DenseGraph.ofEdges 10 cyclesA)).length = 4 ∧
    maxMatchingSizeBrute cyclesA = 4 := by
  exact ⟨by rfl, by rfl⟩

set_option maxRecDepth 1000000 in
/-- Scenario A, second half: adding the edge (1, 9) between the two
cycles raises the matcher's output to cardinality 5 (a perfect
matching), again agreeing with the brute-force maximum. -/
theorem scenarioA_bridge_maximum :
    (findMaximumMatching
      (DenseGraph.ofEdges 10 (cyclesA ++ [(1, 9)]))).length = 5 ∧
    maxMatchingSizeBrute (cyclesA ++ [(1, 9)]) = 5 := by
  exact ⟨by rfl, by rfl⟩

set_option maxRecDepth 1000000 in
/-- On both scenario A graphs the returned edge lists are valid
matchings: every returned edge is an edge of the input graph, and no
vertex occurs in two returned edges. -/
theorem scenarioA_matchings_valid :
    ((findMaximumMatching (DenseGraph.ofEdges 10 cyclesA)).all
      (fun e => (DenseGraph.ofEdges 10 cyclesA).containsEdge e.1 e.2))
        = true ∧
    isMatchingList (findMaximumMatching (DenseGraph.ofEdges 10 cyclesA))
        = true ∧
    ((findMaximumMatching
        (DenseGraph.ofEdges 10 (cyclesA ++ [(1, 9)]))).all
      (fun e =>
        (DenseGraph.ofEdges 10 (cyclesA ++ [(1, 9)])).containsEdge
          e.1 e.2)) = true ∧
    isMatchingList
      (findMaximumMatching (DenseGraph.ofEdges 10 (cyclesA ++ [(1, 9)])))
        = true := by
  exact ⟨by rfl, by rfl, by rfl, by rfl⟩

end GraphBlossom
